import Mathlib

/-!
Verification of `scripts/export_static.py` (static snapshot exporter for a
Glance dashboard).  The script is pure text surgery plus an orchestrating
`main`; we shallowly embed it over `List Char` (Python `str` values are
sequences of code points, so `List Char` is a faithful carrier).  Network
and filesystem effects are modelled by an explicit environment record and
an explicit list of performed writes.

Conventions:
* every Python helper keeps its source name (leading underscore dropped,
  Lean-style casing kept close to the original);
* regular expressions of the source are embedded as dedicated scanning
  functions whose semantics mirror the Python `re` behaviour (leftmost
  match, greedy quantifiers with backtracking, non-overlapping `sub`);
* `re.sub`/`re.subn` never rescan the text produced by a replacement for
  the same pattern; the scanners below resume after the consumed match.
-/

namespace ExportStatic

/-! ### Basic character classes (ASCII fragment of Python's semantics) -/

/-- Python whitespace for `str.strip` / regex `\s` (ASCII fragment). -/
def pySpace (c : Char) : Bool :=
  c = ' ' || c = '\t' || c = '\n' || c = '\r' || c = '\x0b' || c = '\x0c'

/-- Regex `\w` (ASCII fragment): letters, digits, underscore. -/
def wordChar (c : Char) : Bool :=
  c.isAlpha || c.isDigit || c = '_'

/-- Characters allowed in a `slug:` value: `[A-Za-z0-9_-]`. -/
def slugChar (c : Char) : Bool :=
  c.isAlpha || c.isDigit || c = '_' || c = '-'

def quoteChar (c : Char) : Bool := c = '\'' || c = '"'

/-! ### Python string primitives -/

/-- `str.strip()` with no argument (strip whitespace on both ends). -/
def pyStrip (s : List Char) : List Char :=
  ((s.dropWhile pySpace).reverse.dropWhile pySpace).reverse

/-- `str.rstrip(chars)` for a single-character set given by `p`. -/
def dropTrailing (p : Char → Bool) (s : List Char) : List Char :=
  (s.reverse.dropWhile p).reverse

/-- `str.lstrip("/")`. -/
def lstripSlash (s : List Char) : List Char := s.dropWhile (· = '/')

/-- Case-insensitive character comparison (`re.IGNORECASE`, ASCII). -/
def ciEq (a b : Char) : Bool := a.toLower = b.toLower

/-- Plain (case-sensitive) prefix test used by the scanners. -/
def strStarts : List Char → List Char → Bool
  | [], _ => true
  | _ :: _, [] => false
  | p :: ps, c :: cs => p = c && strStarts ps cs

/-- Case-insensitive prefix test. -/
def ciStarts : List Char → List Char → Bool
  | [], _ => true
  | _ :: _, [] => false
  | p :: ps, c :: cs => ciEq p c && ciStarts ps cs

/-- `str.splitlines()` restricted to `\n`, `\r`, `\r\n` line ends
(the characters that can actually occur in the involved files). -/
def splitLines : List Char → List (List Char) :=
  go []
where
  go (acc : List Char) : List Char → List (List Char)
    | [] => if acc = [] then [] else [acc.reverse]
    | '\r' :: '\n' :: rest => acc.reverse :: go [] rest
    | '\r' :: rest => acc.reverse :: go [] rest
    | '\n' :: rest => acc.reverse :: go [] rest
    | c :: rest => go (c :: acc) rest

/-! ### `_normalize_base_path` (export_static.py lines 57-67) -/

/--
```
base_path = base_path.strip()
if base_path in ("", "/"): return ""
if not base_path.startswith("/"): base_path = "/" + base_path
return base_path.rstrip("/")
```
-/
def normalize_base_path (basePath : List Char) : List Char :=
  let t := pyStrip basePath
  if t = [] ∨ t = ['/'] then []
  else
    let t := if t.headD ' ' = '/' then t else '/' :: t
    dropTrailing (· = '/') t

/-! ### `_discover_slugs` (lines 70-93) -/

/-- Match one line against `^\s*slug:\s*([A-Za-z0-9_-]+)\s*$`;
returns the captured slug.  The character classes are disjoint, so the
greedy regex is deterministic: skip whitespace, literal `slug:`, skip
whitespace, a maximal non-empty run of slug characters, then only
whitespace up to the end of the line. -/
def slugLine (line : List Char) : Option (List Char) :=
  let t := line.dropWhile pySpace
  if strStarts "slug:".data t then
    let t := (t.drop 5).dropWhile pySpace
    let v := t.takeWhile slugChar
    let rest := t.drop v.length
    if v ≠ [] ∧ rest.all pySpace then some v else none
  else none

/-- All slugs matched in one file's text, in line order. -/
def fileSlugs (text : List Char) : List (List Char) :=
  (splitLines text).filterMap slugLine

/-- A configuration directory: the `*.yml` files in lexically sorted
order, each either readable with the given text or unreadable (`none`,
the `FileNotFoundError` branch of the source, which skips the file).
A directory that does not exist yields the empty list (Python's
`Path.glob` on a missing directory produces no entries). -/
abbrev ConfigDir := List (List Char × Option (List Char))

/-- The slugs contributed by the files, in processing order,
duplicates included (flattening of the per-line loop). -/
def configSlugs (cfg : ConfigDir) : List (List Char) :=
  (cfg.map fun f => match f.2 with
    | none => []
    | some text => fileSlugs text).flatten

/-- The `seen`-set loop of `_discover_slugs`: first occurrence wins. -/
def dedupLoop (seen : List (List Char)) : List (List Char) → List (List Char)
  | [] => []
  | s :: rest =>
      if s ∈ seen then dedupLoop seen rest
      else s :: dedupLoop (s :: seen) rest

/--
`_discover_slugs`: regex-scan every readable file in order, keep first
occurrences, then move `home` to the front when present.
-/
def discover_slugs (cfg : ConfigDir) : List (List Char) :=
  let slugs := dedupLoop [] (configSlugs cfg)
  if "home".data ∈ configSlugs cfg then
    "home".data :: slugs.filter (· ≠ "home".data)
  else slugs

/-- First-occurrence deduplication, written directly (used both to state
the discovery claim and as the model of iterating a Python `set` that was
filled in a known order). -/
def dedupFirst : List (List Char) → List (List Char)
  | [] => []
  | s :: rest => s :: dedupFirst (rest.filter (· ≠ s))
termination_by l => l.length
decreasing_by
  simp only [List.length_cons]
  exact Nat.lt_succ_of_le (List.length_filter_le _ _)

/-! ### A tiny pattern language for the flat patterns of
`_rewrite_base_paths` (lines 160-194)

Each of the nine `re.sub` calls there uses a pattern that is a plain
character sequence: exact characters, case-insensitive characters
(`re.IGNORECASE` on the manifest rewrite), or the one-of-two-quotes
class `['"]`, optionally followed by the negative lookahead `(?!/)`.
-/

inductive PatAtom
  | exact (c : Char)
  | ci (c : Char)
  | quo
deriving DecidableEq

/-- Does atom `a` match character `c`? -/
def atomM : PatAtom → Char → Bool
  | .exact d, c => d = c
  | .ci d, c => ciEq d c
  | .quo, c => quoteChar c

/-- Prefix match of an atom sequence. -/
def patM : List PatAtom → List Char → Bool
  | [], _ => true
  | _ :: _, [] => false
  | a :: p, c :: s => atomM a c && patM p s

/-- Does the pattern (with optional `(?!/)` lookahead) fire at the head
of `s`?  The lookahead succeeds at end of input. -/
def fireB (p : List PatAtom) (neg : Bool) (s : List Char) : Bool :=
  patM p s &&
    (!neg || match (s.drop p.length).head? with
             | some '/' => false
             | _ => true)

/-- Worker for `re.sub` (unbounded count) over such a pattern: `k` is
the number of characters of a previous match still to be skipped; a
replacement is computed from the matched text and the scan resumes
after the match (the replacement itself is never rescanned). -/
def subAGo (p : List PatAtom) (neg : Bool) (rep : List Char → List Char) :
    Nat → List Char → List Char
  | _, [] => []
  | k + 1, _ :: rest => subAGo p neg rep k rest
  | 0, c :: rest =>
      if fireB p neg (c :: rest) then
        rep ((c :: rest).take p.length) ++ subAGo p neg rep (p.length - 1) rest
      else
        c :: subAGo p neg rep 0 rest

/-- `re.sub(pattern, rep, s)` for a flat pattern. -/
def subA (p : List PatAtom) (neg : Bool) (rep : List Char → List Char)
    (s : List Char) : List Char :=
  subAGo p neg rep 0 s

/-- Atoms of a plain case-sensitive literal. -/
def litP (l : List Char) : List PatAtom := l.map .exact

/-- Atoms of a case-insensitive literal. -/
def ciP (l : List Char) : List PatAtom := l.map .ci

/-! ### `_rewrite_base_paths` (lines 160-194) -/

/-- Pattern `{attr}="/(?!/)` resp. `{attr}='/(?!/)` with replacement
`{attr}="{base_path}/`. -/
def attrPat (attr : List Char) (q : Char) : List PatAtom :=
  litP attr ++ [.exact '=', .exact q, .exact '/']

def subAttr (attr : List Char) (q : Char) (bp : List Char) :
    List Char → List Char :=
  subA (attrPat attr q) true (fun _ => attr ++ ['=', q] ++ (bp ++ ['/']))

/-- Pattern `url\('/(?!/)` resp. `url\("/(?!/)`. -/
def urlPat (q : Char) : List PatAtom :=
  litP "url(".data ++ [.exact q, .exact '/']

def subUrlQ (q : Char) (bp : List Char) : List Char → List Char :=
  subA (urlPat q) true (fun _ => "url(".data ++ ([q] ++ (bp ++ ['/'])))

/-- Pattern `href=(['"])manifest\.json` with `re.IGNORECASE`, replacement
`href=\1{base_path}/manifest.json` (the matched quote is re-emitted, the
`href=` of the replacement is the literal lowercase text). -/
def manifestPat : List PatAtom :=
  ciP "href".data ++ [.exact '=', .quo] ++ ciP "manifest".data ++
    [.exact '.'] ++ ciP "json".data

def subManifest (bp : List Char) : List Char → List Char :=
  subA manifestPat false
    (fun m => "href=".data ++ ((m.drop 5).take 1 ++ (bp ++ "/manifest.json".data)))

/--
`_rewrite_base_paths(text, base_path)`: nine sequential substitutions.
For `attr` in `href`, `src`, `action`: double-quote then single-quote
form; then `url('/…` and `url("/…`; finally the bare `manifest.json`
href rewrite.  Empty base path returns the text unchanged.
-/
def rewrite_base_paths (text basePath : List Char) : List Char :=
  if basePath = [] then text
  else
    subManifest basePath <|
    subUrlQ '"' basePath <|
    subUrlQ '\'' basePath <|
    subAttr "action".data '\'' basePath <|
    subAttr "action".data '"' basePath <|
    subAttr "src".data '\'' basePath <|
    subAttr "src".data '"' basePath <|
    subAttr "href".data '\'' basePath <|
    subAttr "href".data '"' basePath <| text

/-! ### CSS `url(...)` reference extraction
(`_download_static_css_and_deps`, lines 197-234)

Pattern `url\(\s*(['"]?)([^'"\)]+)\1\s*\)` (case-sensitive, backreference
`\1` on the optional quote).  The greedy engine is deterministic here:
after `url(` and optional whitespace, either the next character is a
quote — then group 2 is the maximal run free of quotes and `)`, which
must be followed by the *same* quote, whitespace and `)` — or group 1 is
empty and the maximal run must be followed directly by `)` (the run
already swallows any whitespace, and giving characters back to `\s*`
cannot make the required `)` appear earlier).
-/

/-- Characters allowed inside group 2: `[^'"\)]`. -/
def urlRefChar (c : Char) : Bool := !(quoteChar c || c = ')')

/-- Match the `url(...)` pattern at the head of `s`; returns the match
length and the raw group-2 text. -/
def matchUrl (s : List Char) : Option (Nat × List Char) :=
  if strStarts "url(".data s then
    let u := s.drop 4
    let w1 := (u.takeWhile pySpace).length
    let v := u.drop w1
    match v.head? with
    | some q =>
      if quoteChar q then
        let r := (v.drop 1).takeWhile urlRefChar
        if r ≠ [] ∧ ((v.drop 1).drop r.length).head? = some q then
          let after := (v.drop 1).drop (r.length + 1)
          let w2 := (after.takeWhile pySpace).length
          if (after.drop w2).head? = some ')' then
            some (4 + w1 + 1 + r.length + 1 + w2 + 1, r)
          else none
        else none
      else
        let r := v.takeWhile urlRefChar
        if r ≠ [] ∧ (v.drop r.length).head? = some ')' then
          some (4 + w1 + r.length + 1, r)
        else none
    | none => none
  else none

/-- `url_re.finditer`: all raw group-2 texts, left to right,
non-overlapping. -/
def findUrlsGo : Nat → List Char → List (List Char)
  | _, [] => []
  | k + 1, _ :: rest => findUrlsGo k rest
  | 0, c :: rest =>
      match matchUrl (c :: rest) with
      | some (n, r) => r :: findUrlsGo (n - 1) rest
      | none => findUrlsGo 0 rest

def findUrls (s : List Char) : List (List Char) := findUrlsGo 0 s

/-! ### `posixpath` fragment used by the source -/

/-- The number of leading slashes `posixpath.normpath` preserves
(`//` is a special POSIX root, three or more collapse to one). -/
def initSlashesOf (p : List Char) : Nat :=
  if strStarts "//".data p && !strStarts "///".data p then 2
  else if strStarts "/".data p then 1 else 0

/-- One step of CPython's `normpath` component loop. -/
def normStep (initSlashes : Nat) (acc : List (List Char)) (comp : List Char) :
    List (List Char) :=
  if comp = [] ∨ comp = ['.'] then acc
  else if comp ≠ "..".data ∨ (initSlashes = 0 ∧ acc = []) ∨
          (acc ≠ [] ∧ acc.getLast? = some "..".data) then acc ++ [comp]
  else if acc ≠ [] then acc.dropLast else acc

def normJoined (p : List Char) : List Char :=
  List.replicate (initSlashesOf p) '/' ++
    List.intercalate ['/'] ((p.splitOn '/').foldl (normStep (initSlashesOf p)) [])

/-- `posixpath.normpath` (CPython's algorithm verbatim: split on `/`,
drop empty and `.` components, resolve `..` against the stack, preserve
the special `//` root). -/
def normpath (p : List Char) : List Char :=
  if p = [] then ['.']
  else if normJoined p = [] then ['.'] else normJoined p

/-- `posixpath.join(a, b)` for two arguments. -/
def pjoin (a b : List Char) : List Char :=
  if b.headD ' ' = '/' then b
  else if a = [] ∨ a.getLast? = some '/' then a ++ b
  else a ++ '/' :: b

/-- `str(pathlib.Path(p).parent)` for POSIX paths: pathlib collapses
duplicate slashes and `.` segments and drops the final component. -/
def pathParent (p : List Char) : List Char :=
  let root := p.headD ' ' = '/'
  let segs := ((p.splitOn '/').filter fun s => s ≠ [] ∧ s ≠ ['.']).dropLast
  if root then '/' :: List.intercalate ['/'] segs
  else if segs = [] then ['.'] else List.intercalate ['/'] segs

/-- Line 204: `css_dir = "/" + str(Path(bundle_css_path).parent).lstrip("/")`. -/
def cssDirOf (bundlePath : List Char) : List Char :=
  '/' :: lstripSlash (pathParent bundlePath)

/-! ### Per-reference decision (loop body, lines 212-226) -/

/--
```
ref = m.group(2).strip()
if not ref or ref.startswith("data:"): continue
if ref.startswith("http://") or ref.startswith("https://"): continue
if ref.startswith("/"): refs.add(ref); continue
resolved = posixpath.normpath(posixpath.join(css_dir, ref))
if not resolved.startswith("/"): resolved = "/" + resolved
refs.add(resolved)
```
-/
def refResolve (cssDir rawRef : List Char) : Option (List Char) :=
  if pyStrip rawRef = [] ∨ strStarts "data:".data (pyStrip rawRef) then none
  else if strStarts "http://".data (pyStrip rawRef) ∨
          strStarts "https://".data (pyStrip rawRef) then none
  else if (pyStrip rawRef).headD ' ' = '/' then some (pyStrip rawRef)
  else
    some (if (normpath (pjoin cssDir (pyStrip rawRef))).headD ' ' = '/'
          then normpath (pjoin cssDir (pyStrip rawRef))
          else '/' :: normpath (pjoin cssDir (pyStrip rawRef)))

/-! ### `sorted(set)` over reference paths (Python string order) -/

/-- Python string `<` (lexicographic by code point). -/
def lexLt : List Char → List Char → Bool
  | [], [] => false
  | [], _ :: _ => true
  | _ :: _, [] => false
  | a :: as_, b :: bs => if a = b then lexLt as_ bs else decide (a < b)

def insertLex (x : List Char) : List (List Char) → List (List Char)
  | [] => [x]
  | y :: ys => if lexLt x y then x :: y :: ys else y :: insertLex x ys

def sortLex (l : List (List Char)) : List (List Char) := l.foldr insertLex []

/-- The deduplicated, sorted reference set of a stylesheet (the value of
`sorted(refs)` at line 228; the `refs` set is modelled as
first-occurrence deduplication, which `sorted` makes order-insensitive
anyway). -/
def cssRefs (cssDir cssText : List Char) : List (List Char) :=
  sortLex (dedupLoop [] ((findUrls cssText).filterMap (refResolve cssDir)))

/-! ### `_download_static_css_and_deps` (lines 197-234)

The network is an oracle from server paths to bodies (`none` = the fetch
raises).  `urllib.parse.urljoin(glance_url.rstrip("/") + "/",
p.lstrip("/"))` resolves, for the scheme-less dot-free paths this script
produces, to the Glance origin plus `/` plus the stripped path, so a
fetch is keyed here by `'/' :: lstripSlash p`.  The result records the
writes performed (path relative to the output dir, content), the fetched
server paths in order, and whether an exception was raised (later writes
do not happen after a raise).
-/

abbrev Fetch := List Char → Option (List Char)

/-- The per-dependency loop (lines 228-234): fetch each reference in
order, write it under the matching relative path; a failed fetch raises. -/
def dlLoop (fetch : Fetch) : List (List Char) →
    List (List Char × List Char) × List (List Char) × Bool
  | [] => ([], [], false)
  | r :: rest =>
      let key := '/' :: lstripSlash r
      match fetch key with
      | none => ([], [key], true)
      | some d =>
          let (ws, fs, e) := dlLoop fetch rest
          ((lstripSlash r, d) :: ws, key :: fs, e)

def download_static_css_and_deps (fetch : Fetch) (bundlePath : List Char) :
    List (List Char × List Char) × List (List Char) × Bool :=
  let ckey := '/' :: lstripSlash bundlePath
  match fetch ckey with
  | none => ([], [ckey], true)
  | some css =>
      let (ws, fs, e) := dlLoop fetch (cssRefs (cssDirOf bundlePath) css)
      ((lstripSlash bundlePath, css) :: ws, ckey :: fs, e)

/-! ### Generic first-match machinery for the `count=1` substitutions of
`_inject_content` (lines 117-157)

A matcher receives the character preceding the current position (for the
`\b` word boundary of the `aria-busy` pattern; `none` at the start of the
text) and the remaining text; it yields the match length and the
replacement text.  `re.sub(..., count=1)` replaces the leftmost match
and copies the rest verbatim.
-/

abbrev Matcher := Option Char → List Char → Option (Nat × List Char)

/-- Is the head of `l` a quote character? -/
def headQuote (l : List Char) : Bool :=
  match l.head? with
  | some c => quoteChar c
  | none => false

/-- `\b` seen from the left: the previous character is absent (start of
text) or a non-word character. -/
def bdryL (prev : Option Char) : Bool :=
  match prev with
  | some c => !wordChar c
  | none => true

/-- `\b` seen from the right: the next character is absent (end of
text) or a non-word character. -/
def bdryR (l : List Char) : Bool :=
  match l.head? with
  | some c => !wordChar c
  | none => true

/-- `re.sub(p, r, s, count=1)`. -/
def sub1P (M : Matcher) : Option Char → List Char → List Char
  | _, [] => []
  | prev, c :: rest =>
      match M prev (c :: rest) with
      | some nr => nr.2 ++ (c :: rest).drop nr.1
      | none => c :: sub1P M (some c) rest

/-- Position, length and replacement of the leftmost match. -/
def findFstP (M : Matcher) : Option Char → List Char → Option (Nat × Nat × List Char)
  | _, [] => none
  | prev, c :: rest =>
      match M prev (c :: rest) with
      | some nr => some (0, nr)
      | none => (findFstP M (some c) rest).map fun x => (x.1 + 1, x.2)

/-- Number of non-overlapping matches, scanning left to right (the `n`
of `re.subn` with unbounded count). -/
def cntPGo (M : Matcher) : Option Char → Nat → List Char → Nat
  | _, _, [] => 0
  | _, k + 1, c :: rest => cntPGo M (some c) k rest
  | prev, 0, c :: rest =>
      match M prev (c :: rest) with
      | some nr => 1 + cntPGo M (some c) (nr.1 - 1) rest
      | none => cntPGo M (some c) 0 rest

def cntP (M : Matcher) (s : List Char) : Nat := cntPGo M none 0 s

/-- Greedy descending search for the split point of a leading `[^>]*` /
`[^>]+` quantifier: try `j`, then `j-1`, …, down to `1`. -/
def findJDesc (f : Nat → Option α) : Nat → Option α
  | 0 => none
  | j + 1 =>
      match f (j + 1) with
      | some a => some a
      | none => findJDesc f j

/-! ### Replacement-template processing (`re.sub` string templates)

`re.subn` parses a string replacement with `re._parser.parse_template`
before scanning: `\1`-style and `\g<…>` group references, octal
escapes, the letter escapes `\a \b \f \n \r \t \v \\`, literal
pass-through of a backslash before a non-letter character, and a raised
`re.error` on a bad escape (backslash + other ASCII letter), a dangling
trailing backslash, a malformed `\g<…>`, an octal value above `0o377`
or a group index above the pattern's group count.  Step 1 of
`_inject_content` (lines 121-127) builds its replacement as
`r"\1" + content_html + r"</div>"`, so the fetched fragment undergoes
this processing.  Carrier conventions as elsewhere in this file: ASCII
digits and whitespace (`int()` of a `\g<…>` name also accepts local
forms such as non-ASCII decimals, which are not modelled, and the
`MAXGROUPS` cap is far above the one group used here). -/

/-- Piece of a parsed replacement template: a literal character or a
group reference. -/
inductive TplPiece
  | lit (c : Char)
  | grp (n : Nat)
deriving DecidableEq

def isDigitCh (c : Char) : Bool := '0' ≤ c && c ≤ '9'

def isOctCh (c : Char) : Bool := '0' ≤ c && c ≤ '7'

def isAsciiLetterCh (c : Char) : Bool :=
  ('a' ≤ c && c ≤ 'z') || ('A' ≤ c && c ≤ 'Z')

def digVal (c : Char) : Nat := c.toNat - 48

/-- The letter escapes of `re._parser.ESCAPES` usable in templates. -/
def tplEscape : Char → Option Char
  | 'a' => some (Char.ofNat 7)
  | 'b' => some (Char.ofNat 8)
  | 'f' => some (Char.ofNat 12)
  | 'n' => some (Char.ofNat 10)
  | 'r' => some (Char.ofNat 13)
  | 't' => some (Char.ofNat 9)
  | 'v' => some (Char.ofNat 11)
  | '\\' => some '\\'
  | _ => none

/-- Characters of a `\g<…>` name up to the closing `>`; `none` models
the `missing >` error. -/
def scanName : List Char → Option (List Char × List Char)
  | [] => none
  | c :: rest =>
      if c = '>' then some ([], rest)
      else (scanName rest).map fun p => (c :: p.1, p.2)

def natOfDigits (l : List Char) : Nat :=
  l.foldl (fun a c => a * 10 + digVal c) 0

/-- Continuation of a digit run in which an underscore may stand
between two digits (as in `int()`). -/
def digitRunTail : List Char → Bool
  | [] => true
  | c :: rest =>
      if c = '_' then
        match rest with
        | d :: r2 => isDigitCh d && digitRunTail r2
        | [] => false
      else isDigitCh c && digitRunTail rest

/-- Value of a digit run with inner underscores; `none` if malformed
or empty. -/
def digitsVal : List Char → Option Nat
  | [] => none
  | c :: rest =>
      if isDigitCh c && digitRunTail rest then
        some (natOfDigits ((c :: rest).filter (· ≠ '_')))
      else none

def stripWs (l : List Char) : List Char :=
  ((l.dropWhile pySpace).reverse.dropWhile pySpace).reverse

/-- `int(name)` for a `\g<…>` group name: surrounding whitespace, an
optional sign, digits with inner underscores.  `none` models the
`ValueError` turned into `bad character in group name` (which also
covers identifier names, unknown on this pattern without named
groups). -/
def pyIntName (lraw : List Char) : Option Int :=
  match stripWs lraw with
  | '+' :: rest => (digitsVal rest).map Int.ofNat
  | '-' :: rest => (digitsVal rest).map fun n => -(Int.ofNat n)
  | l => (digitsVal l).map Int.ofNat

/-- `re._parser.parse_template` over a pattern with `groups` capturing
groups, fueled by the input length so that it evaluates by kernel
reduction; `none` models the raised `re.error` (or the `IndexError` of
an unknown group name). -/
def parseTplF (groups : Nat) : Nat → List Char → Option (List TplPiece)
  | _, [] => some []
  | 0, _ :: _ => none
  | fuel + 1, c :: rest =>
      if c = '\\' then
        match rest with
        | [] => none
        | e :: r2 =>
            if e = 'g' then
              match r2 with
              | '<' :: r3 =>
                  match scanName r3 with
                  | none => none
                  | some nr =>
                      if nr.1 = [] then none
                      else
                        match pyIntName nr.1 with
                        | none => none
                        | some i =>
                            if i < 0 then none
                            else if groups < i.toNat then none
                            else (parseTplF groups fuel nr.2).map
                              fun t => .grp i.toNat :: t
              | _ => none
            else if e = '0' then
              match r2 with
              | d2 :: r3 =>
                  if isOctCh d2 then
                    match r3 with
                    | d3 :: r4 =>
                        if isOctCh d3 then
                          (parseTplF groups fuel r4).map fun t =>
                            .lit (Char.ofNat (digVal d2 * 8 + digVal d3)) :: t
                        else
                          (parseTplF groups fuel r3).map fun t =>
                            .lit (Char.ofNat (digVal d2)) :: t
                    | [] =>
                        (parseTplF groups fuel r3).map fun t =>
                          .lit (Char.ofNat (digVal d2)) :: t
                  else
                    (parseTplF groups fuel r2).map fun t =>
                      .lit (Char.ofNat 0) :: t
              | [] => some [.lit (Char.ofNat 0)]
            else if isDigitCh e then
              match r2 with
              | d2 :: r3 =>
                  if isDigitCh d2 then
                    match r3 with
                    | d3 :: r4 =>
                        if isOctCh e && isOctCh d2 && isOctCh d3 then
                          if digVal e * 64 + digVal d2 * 8 + digVal d3 ≤ 255 then
                            (parseTplF groups fuel r4).map fun t =>
                              .lit (Char.ofNat
                                (digVal e * 64 + digVal d2 * 8 + digVal d3)) :: t
                          else none
                        else
                          if digVal e * 10 + digVal d2 ≤ groups then
                            (parseTplF groups fuel r3).map fun t =>
                              .grp (digVal e * 10 + digVal d2) :: t
                          else none
                    | [] =>
                        if digVal e * 10 + digVal d2 ≤ groups then
                          some [.grp (digVal e * 10 + digVal d2)]
                        else none
                  else
                    if digVal e ≤ groups then
                      (parseTplF groups fuel r2).map fun t => .grp (digVal e) :: t
                    else none
              | [] =>
                  if digVal e ≤ groups then some [.grp (digVal e)]
                  else none
            else
              match tplEscape e with
              | some ch =>
                  (parseTplF groups fuel r2).map fun t => .lit ch :: t
              | none =>
                  if isAsciiLetterCh e then none
                  else
                    (parseTplF groups fuel r2).map fun t =>
                      .lit '\\' :: .lit e :: t
      else
        (parseTplF groups fuel rest).map fun t => .lit c :: t

def parseTemplate (groups : Nat) (cs : List Char) : Option (List TplPiece) :=
  parseTplF groups cs.length cs

/-- Expansion of a parsed template at a match: group 0 is the whole
match, any higher group the single capture of the one-group patterns
used here. -/
def tplExpand (g0 g1 : List Char) : List TplPiece → List Char
  | [] => []
  | .lit c :: rest => c :: tplExpand g0 g1 rest
  | .grp 0 :: rest => g0 ++ tplExpand g0 g1 rest
  | .grp (_ + 1) :: rest => g1 ++ tplExpand g0 g1 rest

/-! ### The placeholder pattern (lines 121-127)

`(<div[^>]*\bid=["\']page-content["\'][^>]*>)\s*</div>` with
`re.IGNORECASE | re.DOTALL`.  Group 1 is the opening tag through its
`>`; the two quote classes are independent.  The leading `[^>]*` is
greedy (longest split first); `\b` requires the character before `id` to
be a non-word character, which also forces at least one consumed
character after `<div`.
-/

/-- Tail of the placeholder pattern from just before `id=`; returns
(length matched from here, group-1 length from here). -/
def tailPageContent (t : List Char) : Option (Nat × Nat) :=
  if ciStarts "id=".data t then
    match (t.drop 3).head? with
    | some q =>
      if quoteChar q && ciStarts "page-content".data (t.drop 4) &&
          headQuote (t.drop 16) then
        let u := t.drop 17
        let r2 := (u.takeWhile (· ≠ '>')).length
        if (u.drop r2).head? = some '>' then
          let g := 17 + r2 + 1
          let v := u.drop (r2 + 1)
          let w := (v.takeWhile pySpace).length
          if ciStarts "</div>".data (v.drop w) then some (g + w + 6, g)
          else none
        else none
      else none
    | none => none
  else none

/-- Match the whole placeholder pattern at the head of `s`; returns
(total length, group-1 length). -/
def matchPageContent (s : List Char) : Option (Nat × Nat) :=
  if ciStarts "<div".data s then
    let rest := s.drop 4
    let run := (rest.takeWhile (· ≠ '>')).length
    findJDesc
      (fun j =>
        if ¬ wordChar (rest.getD (j - 1) ' ') then
          (tailPageContent (rest.drop j)).map fun x => (4 + j + x.1, 4 + j + x.2)
        else none)
      run
  else none

/-- Matcher for step 1 of `_inject_content`, replacing the match by
the expansion of the parsed template `\1{content_html}</div>` (group 1
is the opening tag, group 0 the whole match). -/
def mPageContent (tpl : List TplPiece) : Matcher := fun _ s =>
  (matchPageContent s).map fun x =>
    (x.1, tplExpand (s.take x.1) (s.take x.2) tpl)

/-- The parsed step-1 replacement template
`r"\1" + content_html + r"</div>"`; `none` models the `re.error`
raised while compiling it. -/
def pageTplOf (content : List Char) : Option (List TplPiece) :=
  parseTemplate 1 ('\\' :: '1' :: (content ++ "</div>".data))

/-- The step-1 matcher for a fragment whose template parses to the
plain splice (no backslash, not starting with a digit); used to state
the injected-region side conditions. -/
def mPageContentC (content : List Char) : Matcher :=
  mPageContent (.grp 1 :: (content ++ "</div>".data).map .lit)

/-- Match-count of the placeholder pattern in a shell. -/
def cntPageContent (s : List Char) : Nat :=
  cntP (fun _ t => (matchPageContent t).map fun x => (x.1, ([] : List Char))) s

/-! ### The busy-state patterns (lines 134-147) -/

/-- Tail of `(<main[^>]*\bclass=["\'])page(\b[^"\']*["\'][^>]*>)` from
just before `class=`; returns (length from here, group-1 length from
here).  After `page` the `\b` requires a non-word character (or end of
input), then a maximal quote-free run, a quote (either kind), a maximal
`>`-free run and `>`. -/
def tailMainPage (t : List Char) : Option (Nat × Nat) :=
  if ciStarts "class=".data t then
    match (t.drop 6).head? with
    | some q =>
      if quoteChar q then
        if ciStarts "page".data (t.drop 7) then
          let after := t.drop 11
          if bdryR after then
            let r1 := (after.takeWhile fun c => !quoteChar c).length
            match (after.drop r1).head? with
            | some q2 =>
              if quoteChar q2 then
                let u := after.drop (r1 + 1)
                let r2 := (u.takeWhile (· ≠ '>')).length
                if (u.drop r2).head? = some '>' then
                  some (11 + r1 + 1 + r2 + 1, 7)
                else none
              else none
            | none => none
          else none
        else none
      else none
    | none => none
  else none

/-- Matcher for step 2: mark the `page` main container `content-ready`.
Replacement `\1page content-ready\2` (group 1 and 2 re-emitted verbatim,
the literal `page content-ready` in lowercase). -/
def mMainPage : Matcher := fun _ s =>
  if ciStarts "<main".data s then
    let rest := s.drop 5
    let run := (rest.takeWhile (· ≠ '>')).length
    (findJDesc
      (fun j =>
        if ¬ wordChar (rest.getD (j - 1) ' ') then
          (tailMainPage (rest.drop j)).map fun x => (5 + j + x.1, 5 + j + x.2)
        else none)
      run).map fun x =>
        (x.1, s.take x.2 ++ "page content-ready".data ++
          (s.drop (x.2 + 4)).take (x.1 - x.2 - 4))
  else none

/-- Matcher for step 3: `(\baria-busy=["\'])true(["\'])`, IGNORECASE,
replacement `\1false\2`.  The `\b` consults the preceding character. -/
def mAriaBusy : Matcher := fun prev s =>
  if bdryL prev then
    if ciStarts "aria-busy=".data s then
      match (s.drop 10).head? with
      | some q =>
        if quoteChar q ∧ ciStarts "true".data (s.drop 11) then
          match (s.drop 15).head? with
          | some q2 =>
            if quoteChar q2 then
              some (16, s.take 11 ++ "false".data ++ [q2])
            else none
          | none => none
        else none
      | none => none
    else none
  else none

/-! ### The bootstrap-script pattern (lines 150-156)

`<script[^>]+src=['\"]/static/[^'\"]+/js/page\.js['\"][^>]*></script>\s*`
with IGNORECASE; replacement empty.  Analogous determinisation: the
quoted path is the maximal quote-free run, which must begin with
`/static/`, end with `/js/page.js`, and have at least one character in
between; trailing whitespace is part of the match.
-/

def mPageJs : Matcher := fun _ s =>
  if ciStarts "<script".data s then
    let rest := s.drop 7
    let run := (rest.takeWhile (· ≠ '>')).length
    (findJDesc
      (fun j =>
        let t := rest.drop j
        if ciStarts "src=".data t then
          match (t.drop 4).head? with
          | some q =>
            if quoteChar q then
              let v := t.drop 5
              let r := v.takeWhile fun c => !quoteChar c
              if headQuote (v.drop r.length) &&
                  ciStarts "/static/".data r && decide (20 ≤ r.length) &&
                  ciStarts "/js/page.js".data (r.drop (r.length - 11)) then
                let u := v.drop (r.length + 1)
                let r2 := (u.takeWhile (· ≠ '>')).length
                if (u.drop r2).head? = some '>' &&
                    ciStarts "</script>".data (u.drop (r2 + 1)) then
                  let w := ((u.drop (r2 + 1 + 9)).takeWhile pySpace).length
                  some (7 + j + 4 + 1 + r.length + 1 + r2 + 1 + 9 + w)
                else none
              else none
            else none
          | none => none
        else none)
      run).map fun n => (n, ([] : List Char))
  else none

/-! ### `_inject_content` (lines 117-157) -/

/-- Steps 2 and 3: the busy-state toggle (each on its first occurrence). -/
def busyToggle (s : List Char) : List Char :=
  sub1P mAriaBusy none (sub1P mMainPage none s)

/--
`_inject_content(shell_html, content_html)`: compile the step-1
replacement template (its `re.error` raises before any scan), inject
the template's expansion into the placeholder (`n != 1` raises, i.e.
no match raises), toggle the busy state, drop the bootstrap script.
`none` models the raised `re.error` / `RuntimeError`.
-/
def inject_content (shell content : List Char) : Option (List Char) :=
  match pageTplOf content with
  | none => none
  | some tpl =>
      match findFstP (mPageContent tpl) none shell with
      | none => none
      | some _ =>
          some (sub1P mPageJs none
            (busyToggle (sub1P (mPageContent tpl) none shell)))

/-! ### `_extract_bundle_css_path` (lines 96-105)

`re.search` of
`<link[^>]+href=['\"](/static/[^'\"]+/css/bundle\.css)['\"][^>]*>`,
IGNORECASE; returns the captured path of the leftmost match, `none`
models the raised `RuntimeError`.
-/

/-- Try a position-wise matcher at every position, left to right. -/
def searchGo (f : List Char → Option α) : List Char → Option α
  | [] => none
  | c :: rest =>
      match f (c :: rest) with
      | some a => some a
      | none => searchGo f rest

def bundleLinkAt (s : List Char) : Option (List Char) :=
  if ciStarts "<link".data s then
    let rest := s.drop 5
    let run := (rest.takeWhile (· ≠ '>')).length
    findJDesc
      (fun j =>
        let t := rest.drop j
        if ciStarts "href=".data t then
          match (t.drop 5).head? with
          | some q =>
            if quoteChar q then
              let v := t.drop 6
              let r := v.takeWhile fun c => !quoteChar c
              if headQuote (v.drop r.length) &&
                  ciStarts "/static/".data r && decide (24 ≤ r.length) &&
                  ciStarts "/css/bundle.css".data (r.drop (r.length - 15)) then
                let u := v.drop (r.length + 1)
                let r2 := (u.takeWhile (· ≠ '>')).length
                if (u.drop r2).head? = some '>' then some r else none
              else none
            else none
          | none => none
        else none)
      run
  else none

def extract_bundle_css_path (shell : List Char) : Option (List Char) :=
  searchGo bundleLinkAt shell

/-! ### `main` (lines 237-321)

The effectful context of one run, shallowly embedded:
* `config` — the sorted `config/*.yml` listing (empty when the directory
  does not exist; a `none` text is a file whose read raises
  `FileNotFoundError`);
* `ready` — the outcome of the bounded readiness poll (lines 257-267):
  some iteration succeeded before the timeout, or not;
* `assets` — the `assets/` tree as relative-path/content pairs, `none`
  when the directory is missing;
* `fetch` — the server, keyed by request path (`none` = the request
  raises);
* `basePath` — the raw `--base-path` argument.

`mainRun` returns the writes performed under the output directory, in
order (a later write to the same path overwrites an earlier one), and
`none` for a successful exit (status 0) or the fatal outcome otherwise.
The final rewrite pass (lines 304-315) reads the files back from disk
and rewrites `.html`/`.css` contents in place; over the write trace this
is the same as mapping the rewrite over every recorded write of such a
path, which is how it is modelled.
-/

structure Env where
  config : ConfigDir
  ready : Bool
  assets : Option (List (List Char × List Char))
  fetch : Fetch
  basePath : List Char

/-- The fatal outcomes of `main`: the distinct exit statuses 2, 3, 4 and
a propagated exception (uncaught `RuntimeError`/fetch error, nonzero
status via the interpreter). -/
inductive MainErr
  | noSlugs      -- return 2
  | notReady     -- return 3
  | noAssets     -- return 4
  | exn          -- uncaught exception
deriving DecidableEq

/-- Line 289: the sample shell is `/home` when that slug exists, else
the first slug's page. -/
def samplePath (slugs : List (List Char)) : List Char :=
  if "home".data ∈ slugs then "/home".data
  else '/' :: (slugs.headD [])

def slugsOf (env : Env) : List (List Char) := discover_slugs env.config

def sampleShellOf (env : Env) : Option (List Char) :=
  env.fetch (samplePath (slugsOf env))

def bundlePathOf (env : Env) : Option (List Char) :=
  (sampleShellOf env).bind extract_bundle_css_path

/-- The writes of the asset copy (line 278), under `assets/`. -/
def assetWrites (a : List (List Char × List Char)) :
    List (List Char × List Char) :=
  a.map fun f => ("assets/".data ++ f.1, f.2)

/-- The manifest fetch (lines 281-286): written when available, silently
skipped otherwise. -/
def manifestWrites (env : Env) : List (List Char × List Char) :=
  match env.fetch "/manifest.json".data with
  | some m => [("manifest.json".data, m)]
  | none => []

/-- The per-slug page loop (lines 294-301): fetch shell and content,
inject, write `<slug>/index.html`, and also `index.html` for `home`.
Failures raise, keeping the writes made so far. -/
def pagesLoop (fetch : Fetch) : List (List Char) →
    List (List Char × List Char) × Option MainErr
  | [] => ([], none)
  | slug :: rest =>
      match fetch ('/' :: slug) with
      | none => ([], some .exn)
      | some shell =>
          match fetch ("/api/pages/".data ++ slug ++ "/content/".data) with
          | none => ([], some .exn)
          | some content =>
              match inject_content shell content with
              | none => ([], some .exn)
              | some page =>
                  let here := (slug ++ "/index.html".data, page) ::
                    (if slug = "home".data then [("index.html".data, page)] else [])
                  let (ws, e) := pagesLoop fetch rest
                  (here ++ ws, e)

/-- Python `p.suffix.lower() in (".html", ".css")` for the written
paths. -/
def rewritable (p : List Char) : Bool :=
  ciStarts ".html".data (p.drop (p.length - 5)) ||
  ciStarts ".css".data (p.drop (p.length - 4))

/-- The final base-path rewrite pass (lines 304-315) over the write
trace. -/
def rewritePass (bp : List Char) (ws : List (List Char × List Char)) :
    List (List Char × List Char) :=
  ws.map fun f => if rewritable f.1 then (f.1, rewrite_base_paths f.2 bp) else f

def mainRun (env : Env) : List (List Char × List Char) × Option MainErr :=
  let slugs := slugsOf env
  if slugs = [] then ([], some .noSlugs)
  else if !env.ready then ([], some .notReady)
  else
    match env.assets with
    | none => ([], some .noAssets)
    | some assets =>
        let aw := assetWrites assets
        let mw := manifestWrites env
        match sampleShellOf env with
        | none => (aw ++ mw, some .exn)
        | some shell =>
            match extract_bundle_css_path shell with
            | none => (aw ++ mw, some .exn)
            | some bpath =>
                let (cw, _, cerr) := download_static_css_and_deps env.fetch bpath
                if cerr then (aw ++ mw ++ cw, some .exn)
                else
                  let (pw, perr) := pagesLoop env.fetch slugs
                  match perr with
                  | some e => (aw ++ mw ++ cw ++ pw, some e)
                  | none =>
                      let all := aw ++ mw ++ cw ++ pw ++ [(".nojekyll".data, [])]
                      (rewritePass (normalize_base_path env.basePath) all, none)

/-- The content at `p` after all writes (last write wins, like the
filesystem). -/
def lastWrite (ws : List (List Char × List Char)) (p : List Char) :
    Option (List Char) :=
  (ws.filter (·.1 = p)).getLast?.map (·.2)

/-! ### Certificates for reasoning about `rewrite_base_paths` with an
abstract base path

The substitutions run in sequence, so later patterns scan text into
which the (universally quantified) base path has already been spliced.
For a base path made of ordinary path characters the patterns can
neither match inside it nor straddle its edges; the Bool certificates
below are decidable side conditions, checked once per pattern and
concrete context, that make this precise.
-/

/-- Characters a normalized GitHub-Pages-style base path is made of. -/
def safeBpChar (c : Char) : Bool :=
  c.isAlpha || c.isDigit || c = '/' || c = '-' || c = '_' || c = '.'

/-- Atoms that no safe character can match (the quote class and unsafe
exact characters). -/
def atomBlockedB : PatAtom → Bool
  | .quo => true
  | .exact c => !safeBpChar c
  | .ci _ => false

/-- Certificate: the pattern cannot begin inside an all-safe segment
that is followed by the concrete text `c2`.  Requires a blocked atom
somewhere in `p` (so `p` cannot sit wholly inside the segment) and that
no proper pattern tail whose consumed head is safe-compatible matches
`c2`. -/
def certBp (p : List PatAtom) (c2 : List Char) : Bool :=
  p.any atomBlockedB &&
  (List.range p.length).all fun k =>
    decide (k = 0) || !((p.take k).all fun a => !atomBlockedB a) ||
    !patM (p.drop k) c2

/-- Certificate: the pattern cannot begin inside the concrete text `c1`
when `c1` is followed by text whose first character is `/`. -/
def certHead (p : List PatAtom) (neg : Bool) (c1 : List Char) : Bool :=
  (List.range c1.length).all fun i =>
    if p.length < (c1.drop i).length then !fireB p neg (c1.drop i)
    else if p.length = (c1.drop i).length then (neg || !patM p (c1.drop i))
    else !(patM (p.take (c1.drop i).length) (c1.drop i) &&
           atomM ((p.drop (c1.drop i).length).headD (.exact ' ')) '/')

/-- Certificate: the pattern fires nowhere in the concrete text `c2`
standing at the end of the scanned text. -/
def certTail (p : List PatAtom) (neg : Bool) (c2 : List Char) : Bool :=
  (List.range c2.length).all fun i => !fireB p neg (c2.drop i)

/-! ### The edit-region chain of `_inject_content`

For the amended content-injection claim: positions of the injected
fragment inside the working text, and the requirement that each of the
three follow-up edits (busy-class, aria-busy, script removal) falls
entirely outside the region `[a, a+b)` holding the fragment and its
closing tag.
-/

/-- Does the leftmost match of `M` in `t` (if any) avoid the region
`[a, a+b)`? -/
def editOutsideB (M : Matcher) (t : List Char) (a b : Nat) : Bool :=
  match findFstP M none t with
  | none => true
  | some (pos, len, _) => decide (pos + len ≤ a) || decide (a + b ≤ pos)

/-- Start position of the region after `M`'s single edit (the region
shifts when the edit happens before it). -/
def shiftStart (M : Matcher) (t : List Char) (a : Nat) : Nat :=
  match findFstP M none t with
  | none => a
  | some (pos, len, r) => if pos + len ≤ a then a - len + r.length else a

/-- Start of the injected fragment in the step-1 output: position of
the placeholder match plus the length of its group 1 (the clean
template's expansion is `\1 ++ content ++ "</div>"`). -/
def injStart (shell content : List Char) : Nat :=
  match findFstP (mPageContentC content) none shell with
  | some x => x.1 + (x.2.2.length - content.length - 6)
  | none => 0

/-- All three follow-up edits of `_inject_content` avoid the injected
fragment region. -/
def busyEditsOutside (shell content : List Char) : Bool :=
  let b := content.length + 6
  let t1 := sub1P (mPageContentC content) none shell
  let a1 := injStart shell content
  editOutsideB mMainPage t1 a1 b &&
  (let t2 := sub1P mMainPage none t1
   let a2 := shiftStart mMainPage t1 a1
   editOutsideB mAriaBusy t2 a2 b &&
   (let t3 := sub1P mAriaBusy none t2
    let a3 := shiftStart mAriaBusy t2 a2
    editOutsideB mPageJs t3 a3 b))

/-- Is `pat` a contiguous substring of the second argument? -/
def strInfix (pat : List Char) : List Char → Bool
  | [] => strStarts pat []
  | c :: rest => strStarts pat (c :: rest) || strInfix pat rest

/-- The relative output paths written by the stylesheet download of a
run (used to state the amended root-document claim). -/
def cssDepWritePaths (env : Env) : List (List Char) :=
  match bundlePathOf env with
  | none => []
  | some bpath => (download_static_css_and_deps env.fetch bpath).1.map (·.1)

/-- A concrete environment without a `home` slug whose stylesheet bundle
references `/index.html`, making the dependency download write the
site-root document. -/
def envNoHomeRoot : Env :=
  ⟨[("a.yml".data, some "slug: about\n".data)], true, some [],
   fun p =>
     if p = "/about".data then
       some "<link href=\"/static/h/css/bundle.css\"><div id=\"page-content\"></div>".data
     else if p = "/api/pages/about/content/".data then some "C".data
     else if p = "/static/h/css/bundle.css".data then
       some "a{b:url(/index.html)}".data
     else if p = "/index.html".data then some "X".data
     else none, []⟩

/-- A concrete environment with a `home` slug and a dependency-free
stylesheet; its run succeeds. -/
def envHomeRoot : Env :=
  ⟨[("a.yml".data, some "slug: home\n".data)], true, some [],
   fun p =>
     if p = "/home".data then
       some "<link href=\"/static/h/css/bundle.css\"><div id=\"page-content\"></div>".data
     else if p = "/api/pages/home/content/".data then some "C".data
     else if p = "/static/h/css/bundle.css".data then some "a{}".data
     else none, []⟩

/-! ## Helper lemmas -/

/-- The trailing-strip never leaves a stripped character at the end. -/
theorem dropTrailing_getLast {p : Char → Bool} {l : List Char} {c : Char}
    (h : (dropTrailing p l).getLast? = some c) : p c = false := by
  unfold dropTrailing at h
  rw [List.getLast?_reverse] at h
  have := List.head?_dropWhile_not p l.reverse
  rw [h] at this
  exact this

/-- The trailing-strip is a prefix of its input. -/
theorem dropTrailing_isPrefix (p : Char → Bool) (l : List Char) :
    dropTrailing p l <+: l := by
  have h := @List.dropWhile_suffix _ l.reverse p
  unfold dropTrailing
  rw [← List.reverse_reverse l]
  exact List.reverse_prefix.mpr (by simpa using h)

/-- A nonempty prefix starts with the same head. -/
theorem head?_of_isPrefix {l t : List Char}
    (h : t <+: l) (hne : t ≠ []) : t.head? = l.head? := by
  obtain ⟨d, rfl⟩ := h
  cases t with
  | nil => exact absurd rfl hne
  | cons a t => simp [List.head?_append]

theorem dropTrailing_head? {p : Char → Bool} {l : List Char}
    (h : dropTrailing p l ≠ []) : (dropTrailing p l).head? = l.head? :=
  head?_of_isPrefix (dropTrailing_isPrefix p l) h

/-! ## C8 — base-path normalization -/

/-- C8 (counterexample): on input `"//x"` the normalizer returns
`"//x"`, which begins with two slashes, not a single leading one. -/
theorem normalize_base_path_double_slash :
    normalize_base_path "//x".data = "//x".data ∧
    ("//x".data).take 2 = "//".data := by
  constructor <;> decide

/--
C8 (amended): for every input, `_normalize_base_path` returns either the
empty string or a string that starts with `/` (possibly more than one)
and does not end with `/`; `""` and `"/"` normalize to empty, an input
without a leading slash gains one, and trailing slashes are removed.
-/
theorem normalize_base_path_spec (s : List Char) :
    (normalize_base_path s = [] ∨
      ((normalize_base_path s).head? = some '/' ∧
       (normalize_base_path s).getLast? ≠ some '/')) ∧
    normalize_base_path "".data = [] ∧
    normalize_base_path "/".data = [] ∧
    normalize_base_path "repo".data = "/repo".data ∧
    normalize_base_path "/a//".data = "/a".data := by
  refine ⟨?_, by decide, by decide, by decide, by decide⟩
  have core : ∀ t : List Char, t ≠ [] →
      ∀ t' : List Char, t'.head? = some '/' →
      (dropTrailing (· = '/') t' = [] ∨
        ((dropTrailing (· = '/') t').head? = some '/' ∧
         (dropTrailing (· = '/') t').getLast? ≠ some '/')) := by
    intro t htne t' ht'
    by_cases hr : dropTrailing (· = '/') t' = []
    · exact Or.inl hr
    · refine Or.inr ⟨?_, ?_⟩
      · rw [dropTrailing_head? hr, ht']
      · intro hc
        have := dropTrailing_getLast hc
        simp at this
  unfold normalize_base_path
  by_cases h0 : pyStrip s = [] ∨ pyStrip s = ['/']
  · left; simp [h0]
  · rw [if_neg h0]
    have htne : pyStrip s ≠ [] := fun hc => h0 (Or.inl hc)
    refine core (pyStrip s) htne _ ?_
    by_cases hh : (pyStrip s).headD ' ' = '/'
    · rw [if_pos hh]
      rcases hc : pyStrip s with _ | ⟨a, l⟩
      · exact absurd hc htne
      · rw [hc] at hh
        simpa using hh
    · rw [if_neg hh]; rfl

/-! ## C4 / C10 — slug discovery -/

theorem dedupFirst_mem {x : List Char} : ∀ {l : List (List Char)},
    x ∈ dedupFirst l ↔ x ∈ l
  | [] => by simp [dedupFirst]
  | s :: rest => by
      rw [dedupFirst]
      by_cases hx : x = s
      · subst hx; simp
      · simp only [List.mem_cons, hx, false_or]
        rw [dedupFirst_mem]
        simp [List.mem_filter, hx]
termination_by l => l.length
decreasing_by
  simp only [List.length_cons]
  exact Nat.lt_succ_of_le (List.length_filter_le _ _)

theorem dedupFirst_nodup : ∀ (l : List (List Char)), (dedupFirst l).Nodup
  | [] => by simp [dedupFirst]
  | s :: rest => by
      rw [dedupFirst]
      refine List.nodup_cons.mpr ⟨?_, dedupFirst_nodup _⟩
      intro hmem
      have := dedupFirst_mem.mp hmem
      simp [List.mem_filter] at this
termination_by l => l.length
decreasing_by
  simp only [List.length_cons]
  exact Nat.lt_succ_of_le (List.length_filter_le _ _)

/-- The `seen`-set loop computes first-occurrence deduplication of the
not-yet-seen elements. -/
theorem dedupLoop_eq : ∀ (l : List (List Char)) (seen : List (List Char)),
    dedupLoop seen l = dedupFirst (l.filter fun s => decide (s ∉ seen))
  | [], _ => by simp [dedupLoop, dedupFirst]
  | s :: rest, seen => by
      by_cases hs : s ∈ seen
      · rw [dedupLoop, if_pos hs]
        have : (List.filter (fun s => decide (s ∉ seen)) (s :: rest)) =
            rest.filter fun s => decide (s ∉ seen) := by
          simp [List.filter, hs]
        rw [this, dedupLoop_eq rest seen]
      · rw [dedupLoop, if_neg hs]
        have h1 : (List.filter (fun x => decide (x ∉ seen)) (s :: rest)) =
            s :: rest.filter fun x => decide (x ∉ seen) := by
          simp [List.filter, hs]
        rw [h1, dedupFirst, dedupLoop_eq rest (s :: seen), List.filter_filter]
        have : (List.filter (fun x => decide (x ∉ s :: seen)) rest) =
            List.filter (fun a => decide (a ≠ s) && decide (a ∉ seen)) rest :=
          List.filter_congr fun x _ => by
            by_cases hx : x = s <;> by_cases hxs : x ∈ seen <;>
              simp [hx, hxs, List.mem_cons]
        rw [this]

/-- With an empty `seen` set, the loop is plain first-occurrence
deduplication. -/
theorem dedupLoop_nil (l : List (List Char)) :
    dedupLoop [] l = dedupFirst l := by
  rw [dedupLoop_eq]
  congr 1
  exact (List.filter_congr fun x _ => by simp).trans (List.filter_true _)

theorem discover_slugs_eq (cfg : ConfigDir) :
    discover_slugs cfg =
      (if "home".data ∈ dedupFirst (configSlugs cfg)
       then "home".data ::
         (dedupFirst (configSlugs cfg)).filter (· ≠ "home".data)
       else dedupFirst (configSlugs cfg)) := by
  unfold discover_slugs
  have h1 : dedupLoop [] (configSlugs cfg) = dedupFirst (configSlugs cfg) :=
    dedupLoop_nil _
  have h2 : ("home".data ∈ configSlugs cfg) ↔
      "home".data ∈ dedupFirst (configSlugs cfg) := dedupFirst_mem.symm
  rw [h1]
  by_cases hh : "home".data ∈ dedupFirst (configSlugs cfg)
  · rw [if_pos (h2.mpr hh), if_pos hh]
  · rw [if_neg (fun hc => hh (h2.mp hc)), if_neg hh]

/--
C4: discovery returns the first-occurrence deduplication of the slugs
extracted from the declaration files in processing order — exactly one
entry per distinct identifier, first occurrence order preserved — except
that `home`, when present, is moved to the front with the relative order
of the rest preserved; the result has no duplicates and exactly as many
entries as there are distinct identifiers.
-/
theorem discover_slugs_spec (cfg : ConfigDir) :
    discover_slugs cfg =
      (if "home".data ∈ dedupFirst (configSlugs cfg)
       then "home".data ::
         (dedupFirst (configSlugs cfg)).filter (· ≠ "home".data)
       else dedupFirst (configSlugs cfg)) ∧
    (discover_slugs cfg).Nodup ∧
    (discover_slugs cfg).length = (configSlugs cfg).toFinset.card := by
  have heq := discover_slugs_eq cfg
  have hnd := dedupFirst_nodup (configSlugs cfg)
  have hts : (dedupFirst (configSlugs cfg)).toFinset =
      (configSlugs cfg).toFinset := by
    ext x; simp [List.mem_toFinset, dedupFirst_mem]
  have hlen : (dedupFirst (configSlugs cfg)).length =
      (configSlugs cfg).toFinset.card := by
    rw [← hts, List.toFinset_card_of_nodup hnd]
  refine ⟨heq, ?_, ?_⟩
  · rw [heq]
    by_cases hh : "home".data ∈ dedupFirst (configSlugs cfg)
    · rw [if_pos hh]
      refine List.nodup_cons.mpr ⟨?_, hnd.filter _⟩
      intro hc
      simp [List.mem_filter] at hc
    · rw [if_neg hh]; exact hnd
  · rw [heq]
    by_cases hh : "home".data ∈ dedupFirst (configSlugs cfg)
    · rw [if_pos hh]
      have he : (dedupFirst (configSlugs cfg)).filter (· ≠ "home".data) =
          (dedupFirst (configSlugs cfg)).erase "home".data := by
        rw [hnd.erase_eq_filter]
        exact List.filter_congr fun x _ => by
          by_cases hx : x = "home".data <;> simp [hx, bne]
      rw [List.length_cons, he, List.length_erase_of_mem hh, ← hlen]
      have : 0 < (dedupFirst (configSlugs cfg)).length :=
        List.length_pos.mpr (fun hc => by simp [hc] at hh)
      omega
    · rw [if_neg hh]; exact hlen

/--
C10: slug discovery is total over missing inputs — an absent
configuration directory (no files) or a directory whose declaration
files all fail to read yields the empty list without raising, and the
run then takes the distinct "no page slugs found" fatal path (exit
status 2) with nothing written.
-/
theorem discover_slugs_total (cfg : ConfigDir) (h : ∀ f ∈ cfg, f.2 = none) :
    discover_slugs cfg = [] ∧
    ∀ env : Env, env.config = cfg → mainRun env = ([], some .noSlugs) := by
  have hex : configSlugs cfg = [] := by
    unfold configSlugs
    rw [List.flatten_eq_nil_iff]
    intro l hl
    rw [List.mem_map] at hl
    obtain ⟨f, hf, rfl⟩ := hl
    rw [h f hf]
  have hd : discover_slugs cfg = [] := by
    rw [discover_slugs_eq, hex]
    simp [dedupFirst]
  refine ⟨hd, fun env henv => ?_⟩
  unfold mainRun slugsOf
  rw [henv, hd]
  rfl

/-- Witness for C10 at a directory with one unreadable file. -/
theorem discover_slugs_total_witness :
    discover_slugs [("a.yml".data, none)] = [] ∧
    mainRun ⟨[("a.yml".data, none)], true, none, fun _ => none, []⟩ =
      ([], some .noSlugs) :=
  ⟨(discover_slugs_total [("a.yml".data, none)] (by simp)).1,
   (discover_slugs_total [("a.yml".data, none)] (by simp)).2 _ rfl⟩

/-! ## C3 — concrete CSS dependency resolution -/

set_option maxRecDepth 10000 in
/--
C3: for a bundle at `/static/abc123/css/bundle.css` whose text holds
`url(../fonts/a.woff2)` and `url(/static/abc123/img/b.png)`, the
resolved reference set is exactly
`{/static/abc123/fonts/a.woff2, /static/abc123/img/b.png}` — the
relative reference resolved against the bundle's directory and coerced
root-absolute, the root-absolute one kept as-is — and the download step
fetches the bundle and then each reference exactly once, in sorted
order, writing each to the same path in the output tree.
-/
theorem css_deps_example :
    cssRefs (cssDirOf "/static/abc123/css/bundle.css".data)
        "@font-face{src:url(../fonts/a.woff2);}body{background:url(/static/abc123/img/b.png);}".data =
      ["/static/abc123/fonts/a.woff2".data, "/static/abc123/img/b.png".data] ∧
    download_static_css_and_deps
      (fun p =>
        if p = "/static/abc123/css/bundle.css".data then
          some "@font-face{src:url(../fonts/a.woff2);}body{background:url(/static/abc123/img/b.png);}".data
        else if p = "/static/abc123/fonts/a.woff2".data then some "F".data
        else if p = "/static/abc123/img/b.png".data then some "I".data
        else none)
      "/static/abc123/css/bundle.css".data =
      ([("static/abc123/css/bundle.css".data,
          "@font-face{src:url(../fonts/a.woff2);}body{background:url(/static/abc123/img/b.png);}".data),
        ("static/abc123/fonts/a.woff2".data, "F".data),
        ("static/abc123/img/b.png".data, "I".data)],
       ["/static/abc123/css/bundle.css".data,
        "/static/abc123/fonts/a.woff2".data,
        "/static/abc123/img/b.png".data], false) := by
  constructor <;> decide

/-! ## C5 — which `url(...)` references are excluded -/

set_option maxRecDepth 10000 in
/-- C5 (counterexample): a protocol-relative reference `//cdn.example/x`
is *not* excluded — it starts with `/`, so the code keeps it as-is in
the download set. -/
theorem protocol_relative_ref_kept :
    refResolve "/static/h/css".data "//cdn.example/x".data =
      some "//cdn.example/x".data ∧
    cssRefs "/static/h/css".data "a{b:url(//cdn.example/x)}".data =
      ["//cdn.example/x".data] := by
  constructor <;> decide

theorem normpath_ne_nil (p : List Char) : normpath p ≠ [] := by
  unfold normpath
  split_ifs with h1 h2 <;> simp_all

/-- `headD ' ' = '/'` on a list known nonempty gives `head? = some '/'`. -/
theorem head?_of_headD {l : List Char} (hne : l ≠ []) (h : l.headD ' ' = '/') :
    l.head? = some '/' := by
  cases l with
  | nil => exact absurd rfl hne
  | cons a t => simpa using h

/--
C5 (amended): a reference is excluded from the download set iff its
stripped text is empty, a `data:` URI, or an absolute `http://` /
`https://` URL; *protocol-relative references beginning with `//` (and
other scheme prefixes) are kept*.  Every kept reference starting with
`/` is taken as-is, every kept reference is root-absolute in the result
(relative ones being resolved against the bundle's directory and coerced
to a leading slash).
-/
theorem refResolve_spec (dir raw : List Char) :
    (refResolve dir raw = none ↔
      (pyStrip raw = [] ∨ strStarts "data:".data (pyStrip raw) ∨
       strStarts "http://".data (pyStrip raw) ∨
       strStarts "https://".data (pyStrip raw))) ∧
    ((pyStrip raw).head? = some '/' →
      refResolve dir raw = none ∨ refResolve dir raw = some (pyStrip raw)) ∧
    (∀ out, refResolve dir raw = some out → out.head? = some '/') := by
  unfold refResolve
  split_ifs with h1 h2 h3 h4
  · exact ⟨iff_of_true rfl (h1.imp id Or.inl), fun _ => Or.inl rfl, by simp⟩
  · refine ⟨iff_of_true rfl ?_, fun _ => Or.inl rfl, by simp⟩
    rcases h2 with h | h
    · exact Or.inr (Or.inr (Or.inl h))
    · exact Or.inr (Or.inr (Or.inr h))
  all_goals
    have hne : pyStrip raw ≠ [] := fun hc => h1 (Or.inl hc)
  all_goals
    have hskip : ¬(pyStrip raw = [] ∨
        strStarts "data:".data (pyStrip raw) = true ∨
        strStarts "http://".data (pyStrip raw) = true ∨
        strStarts "https://".data (pyStrip raw) = true) := by
      intro hc
      rcases hc with h | h | h | h
      · exact hne h
      · exact h1 (Or.inr h)
      · exact h2 (Or.inl h)
      · exact h2 (Or.inr h)
  · refine ⟨iff_of_false (by simp) hskip, fun _ => Or.inr rfl, ?_⟩
    intro out hout
    injection hout with h
    rw [← h]
    exact head?_of_headD hne h3
  all_goals
    have hnh : ¬(pyStrip raw).head? = some '/' := by
      intro hc
      refine h3 ?_
      rw [List.headD_eq_head?_getD, hc]
      rfl
  · refine ⟨iff_of_false (by simp) hskip, fun hc => absurd hc hnh, ?_⟩
    intro out hout
    injection hout with h
    rw [← h]
    exact head?_of_headD (normpath_ne_nil _) h4
  · refine ⟨iff_of_false (by simp) hskip, fun hc => absurd hc hnh, ?_⟩
    intro out hout
    injection hout with h
    rw [← h]
    rfl

/-- Witness for the amended C5 at a concrete root-absolute reference. -/
theorem refResolve_spec_witness :
    refResolve "/static/h/css".data " /img/a.png ".data =
      some "/img/a.png".data := by
  have hiff := (refResolve_spec "/static/h/css".data " /img/a.png ".data).1
  have hk := (refResolve_spec "/static/h/css".data " /img/a.png ".data).2.1
    (by decide)
  cases hk with
  | inl h => exact absurd (hiff.mp h) (by decide)
  | inr h => exact h.trans (by decide)

/-! ## First-match machinery lemmas -/

/-- No match anywhere means `count=1` substitution is the identity. -/
theorem sub1P_of_none (M : Matcher) :
    ∀ (s : List Char) (prev : Option Char),
      findFstP M prev s = none → sub1P M prev s = s
  | [], _, _ => rfl
  | c :: rest, prev, h => by
      rw [findFstP] at h
      rw [sub1P]
      cases hM : M prev (c :: rest) with
      | some x => rw [hM] at h; exact absurd h (by simp)
      | none =>
          rw [hM] at h
          cases hF : findFstP M (some c) rest with
          | some y => rw [hF] at h; exact absurd h (by simp)
          | none =>
              show c :: sub1P M (some c) rest = c :: rest
              rw [sub1P_of_none M rest (some c) hF]

/-- The `count=1` substitution replaces exactly the leftmost match. -/
theorem sub1P_of_some (M : Matcher) :
    ∀ (s : List Char) (prev : Option Char) (pos len : Nat) (rep : List Char),
      findFstP M prev s = some (pos, len, rep) →
      sub1P M prev s = s.take pos ++ rep ++ s.drop (pos + len)
  | [], _, _, _, _, h => by rw [findFstP] at h; exact absurd h (by simp)
  | c :: rest, prev, pos, len, rep, h => by
      rw [findFstP] at h
      rw [sub1P]
      cases hM : M prev (c :: rest) with
      | some x =>
          rw [hM] at h
          simp only [Option.some.injEq, Prod.mk.injEq] at h
          obtain ⟨rfl, rfl⟩ : pos = 0 ∧ x = (len, rep) :=
            ⟨h.1.symm, h.2⟩
          simp
      | none =>
          rw [hM] at h
          cases hF : findFstP M (some c) rest with
          | none => rw [hF] at h; exact absurd h (by simp)
          | some y =>
              rw [hF] at h
              obtain ⟨y1, y2⟩ := y
              simp only [Option.map_some', Option.some.injEq,
                Prod.mk.injEq] at h
              obtain ⟨h1, h2⟩ := h
              show c :: sub1P M (some c) rest = _
              rw [sub1P_of_some M (rest) (some c) y1 len rep
                (by rw [hF, h2])]
              rw [← h1]
              have harith : y1 + 1 + len = (y1 + len) + 1 := by omega
              rw [harith]
              simp [List.take_succ_cons, List.drop_succ_cons]

/-- The leftmost match lies inside the text. -/
theorem findFstP_pos_lt (M : Matcher) :
    ∀ (s : List Char) (prev : Option Char) (pos len : Nat) (rep : List Char),
      findFstP M prev s = some (pos, len, rep) → pos < s.length
  | [], _, _, _, _, h => by rw [findFstP] at h; exact absurd h (by simp)
  | c :: rest, prev, pos, len, rep, h => by
      rw [findFstP] at h
      cases hM : M prev (c :: rest) with
      | some x =>
          rw [hM] at h
          simp only [Option.some.injEq, Prod.mk.injEq] at h
          simp [← h.1]
      | none =>
          rw [hM] at h
          cases hF : findFstP M (some c) rest with
          | none => rw [hF] at h; exact absurd h (by simp)
          | some y =>
              rw [hF] at h
              obtain ⟨y1, y2⟩ := y
              simp only [Option.map_some', Option.some.injEq,
                Prod.mk.injEq] at h
              obtain ⟨h1, h2⟩ := h
              have := findFstP_pos_lt M rest (some c) y1 len rep
                (by rw [hF, h2])
              simp only [List.length_cons]
              omega

/-- The match data of the leftmost match is produced by the matcher at
the matching suffix, for some preceding character. -/
theorem findFstP_apply (M : Matcher) :
    ∀ (s : List Char) (prev : Option Char) (pos len : Nat) (rep : List Char),
      findFstP M prev s = some (pos, len, rep) →
      ∃ prev', M prev' (s.drop pos) = some (len, rep)
  | [], _, _, _, _, h => by rw [findFstP] at h; exact absurd h (by simp)
  | c :: rest, prev, pos, len, rep, h => by
      rw [findFstP] at h
      cases hM : M prev (c :: rest) with
      | some x =>
          rw [hM] at h
          simp only [Option.some.injEq, Prod.mk.injEq] at h
          obtain ⟨rfl, rfl⟩ : pos = 0 ∧ x = (len, rep) :=
            ⟨h.1.symm, h.2⟩
          exact ⟨prev, by rw [List.drop_zero, hM]⟩
      | none =>
          rw [hM] at h
          cases hF : findFstP M (some c) rest with
          | none => rw [hF] at h; exact absurd h (by simp)
          | some y =>
              rw [hF] at h
              obtain ⟨y1, y2⟩ := y
              simp only [Option.map_some', Option.some.injEq,
                Prod.mk.injEq] at h
              obtain ⟨h1, h2⟩ := h
              obtain ⟨prev', hp⟩ := findFstP_apply M rest (some c) y1 len rep
                (by rw [hF, h2])
              refine ⟨prev', ?_⟩
              rw [← h1]
              simpa using hp

/-- Zero match count is the same as no first match. -/
theorem cntPGo_eq_zero (M : Matcher) :
    ∀ (s : List Char) (prev : Option Char),
      cntPGo M prev 0 s = 0 ↔ findFstP M prev s = none
  | [], _ => by simp [cntPGo, findFstP]
  | c :: rest, prev => by
      rw [cntPGo, findFstP]
      cases hM : M prev (c :: rest) with
      | some x => simp
      | none =>
          show cntPGo M (some c) 0 rest = 0 ↔
            Option.map _ (findFstP M (some c) rest) = none
          rw [cntPGo_eq_zero M rest (some c)]
          cases findFstP M (some c) rest <;> simp

/--
If the leftmost match of `M` avoids the region `[a, a+b)` of
`t = x ++ m ++ y` with `a = x.length`, `b = m.length`, then the
substitution keeps `m` intact and the region start moves to
`shiftStart`.
-/
theorem region_preserved (M : Matcher) (x m y : List Char)
    (h : editOutsideB M (x ++ m ++ y) x.length m.length = true) :
    ∃ x' y', sub1P M none (x ++ m ++ y) = x' ++ m ++ y' ∧
      x'.length = shiftStart M (x ++ m ++ y) x.length := by
  unfold editOutsideB at h
  cases hF : findFstP M none (x ++ m ++ y) with
  | none =>
      have hss : shiftStart M (x ++ m ++ y) x.length = x.length := by
        unfold shiftStart; rw [hF]
      rw [sub1P_of_none M _ none hF, hss]
      exact ⟨x, y, rfl, rfl⟩
  | some d =>
      obtain ⟨pos, len, rep⟩ := d
      rw [hF] at h
      have hss : shiftStart M (x ++ m ++ y) x.length =
          if pos + len ≤ x.length then x.length - len + rep.length
          else x.length := by
        unfold shiftStart; rw [hF]
      rw [sub1P_of_some M _ none pos len rep hF, hss]
      simp only [decide_eq_true_eq, Bool.or_eq_true] at h
      by_cases hc : pos + len ≤ x.length
      · rw [if_pos hc]
        have hposx : pos ≤ x.length := le_trans (Nat.le_add_right _ _) hc
        have hxm : pos ≤ (x ++ m).length := by
          rw [List.length_append]; omega
        have hxm' : pos + len ≤ (x ++ m).length := by
          rw [List.length_append]; omega
        refine ⟨x.take pos ++ rep ++ x.drop (pos + len), y, ?_, ?_⟩
        · have hdrop : (x ++ m ++ y).drop (pos + len) =
              x.drop (pos + len) ++ m ++ y := by
            rw [List.drop_append_eq_append_drop,
              List.drop_append_eq_append_drop,
              Nat.sub_eq_zero_of_le hc, Nat.sub_eq_zero_of_le hxm',
              List.drop_zero, List.drop_zero]
          have htake : (x ++ m ++ y).take pos = x.take pos := by
            rw [List.take_append_eq_append_take,
              List.take_append_eq_append_take,
              Nat.sub_eq_zero_of_le hposx, Nat.sub_eq_zero_of_le hxm,
              List.take_zero, List.take_zero, List.append_nil,
              List.append_nil]
          rw [hdrop, htake]
          simp [List.append_assoc]
        · simp only [List.length_append, List.length_take, List.length_drop]
          rw [Nat.min_eq_left hposx]
          omega
      · have hge : x.length + m.length ≤ pos := by
          rcases h with h | h
          · exact absurd h hc
          · exact h
        have h1 : x.length ≤ pos := le_trans (Nat.le_add_right _ _) hge
        have hxm : (x ++ m).length ≤ pos := by
          rw [List.length_append]; omega
        rw [if_neg hc]
        refine ⟨x, y.take (pos - x.length - m.length) ++ rep ++
          (x ++ m ++ y).drop (pos + len), ?_, rfl⟩
        have htake : (x ++ m ++ y).take pos =
            x ++ m ++ y.take (pos - x.length - m.length) := by
          rw [List.take_append_eq_append_take,
            List.take_of_length_le hxm, List.length_append]
          congr 2
          omega
        rw [htake]
        simp [List.append_assoc]

/-! ## C6 — the busy-state toggle -/

/--
C6: applied to a main container with `class="page"` and
`aria-busy="true"`, the toggle yields `class="page content-ready"` and
`aria-busy="false"`; each edit happens on its first occurrence only (a
second identical container is left alone); applied to markup in which
neither pattern occurs, the toggle returns the text unchanged and raises
no error.
-/
theorem busy_toggle_spec :
    busyToggle "<main class=\"page\" aria-busy=\"true\">".data =
      "<main class=\"page content-ready\" aria-busy=\"false\">".data ∧
    busyToggle ("<main class=\"page\" aria-busy=\"true\">".data ++
        "<main class=\"page\" aria-busy=\"true\">".data) =
      ("<main class=\"page content-ready\" aria-busy=\"false\">".data ++
        "<main class=\"page\" aria-busy=\"true\">".data) ∧
    ∀ s : List Char, findFstP mMainPage none s = none →
      findFstP mAriaBusy none s = none → busyToggle s = s := by
  refine ⟨by decide, by decide, fun s h1 h2 => ?_⟩
  unfold busyToggle
  rw [sub1P_of_none mMainPage s none h1, sub1P_of_none mAriaBusy s none h2]

/-- Witness for C6 on markup with neither pattern. -/
theorem busy_toggle_spec_witness :
    busyToggle "<span>x</span>".data = "<span>x</span>".data :=
  busy_toggle_spec.2.2 "<span>x</span>".data (by decide) (by decide)

/-! ## C2 — content injection -/

/-- C2 (counterexample): the claimed for-every-fragment success and
verbatim splice both fail.  Injecting a fragment that itself carries
`aria-busy="true"` into a shell with exactly one empty placeholder
succeeds, but the busy-state toggle then rewrites the *fragment*, so
the output does not contain the fragment verbatim; a fragment with the
bad escape `\U` (as in `C:\Users`) makes the run raise `re.error`
instead of succeeding; and a fragment containing `\1` is spliced with
the template reference expanded to the captured opening tag, again not
verbatim. -/
theorem inject_content_alters_fragment :
    cntPageContent "<div id=\"page-content\"></div>".data = 1 ∧
    (inject_content "<div id=\"page-content\"></div>".data
        "<p aria-busy=\"true\">x</p>".data).map
      (fun r => strInfix "<p aria-busy=\"true\">x</p>".data r) =
      some false ∧
    inject_content "<div id=\"page-content\"></div>".data
      "C:\\Users".data = none ∧
    inject_content "<div id=\"page-content\"></div>".data "A\\1B".data =
      some "<div id=\"page-content\">A<div id=\"page-content\">B</div>".data := by
  refine ⟨by decide, by decide, by decide, by decide⟩

/-- Matchers that agree on where they match agree on having a first
match. -/
theorem findFstP_none_congr (M₁ M₂ : Matcher)
    (h : ∀ p t, M₁ p t = none ↔ M₂ p t = none) :
    ∀ (s : List Char) (prev : Option Char),
      findFstP M₁ prev s = none ↔ findFstP M₂ prev s = none
  | [], _ => by simp [findFstP]
  | c :: rest, prev => by
      rw [findFstP, findFstP]
      cases hM1 : M₁ prev (c :: rest) with
      | some x =>
          cases hM2 : M₂ prev (c :: rest) with
          | none => exact absurd ((h prev _).mpr hM2) (by simp [hM1])
          | some y => simp
      | none =>
          rw [(h prev _).mp hM1]
          show Option.map _ (findFstP M₁ (some c) rest) = none ↔
            Option.map _ (findFstP M₂ (some c) rest) = none
          rw [Option.map_eq_none', Option.map_eq_none']
          exact findFstP_none_congr M₁ M₂ h rest (some c)

/-- A backslash-free stretch of a replacement template parses to its
literal characters. -/
theorem parseTplF_clean (groups : Nat) :
    ∀ (cs : List Char) (fuel : Nat), cs.length ≤ fuel →
      (∀ c ∈ cs, c ≠ '\\') →
      parseTplF groups fuel cs = some (cs.map .lit)
  | [], fuel, _, _ => by cases fuel <;> rfl
  | c :: cs, fuel, hlen, hnb => by
      cases fuel with
      | zero => simp only [List.length_cons] at hlen; omega
      | succ f =>
          have hc : ¬(c = '\\') := hnb c (List.mem_cons_self c cs)
          simp only [parseTplF, if_neg hc]
          rw [parseTplF_clean groups cs f
            (by simp only [List.length_cons] at hlen; omega)
            (fun d hd => hnb d (List.mem_cons_of_mem c hd))]
          rfl

/-- The step-1 template of a clean fragment (no backslash, not
starting with a digit) parses to the group-1 reference followed by the
fragment and closing tag as literals. -/
theorem pageTplOf_clean (content : List Char) (hnb : '\\' ∉ content)
    (hhd : isDigitCh (content.headD 'x') = false) :
    pageTplOf content =
      some (.grp 1 :: (content ++ "</div>".data).map .lit) := by
  cases content with
  | nil => decide
  | cons c0 ct =>
      have hc0 : isDigitCh c0 = false := hhd
      have hc0bs : ¬(c0 = '\\') := by
        intro he
        exact hnb (he ▸ List.mem_cons_self c0 ct)
      have hcs : ∀ c ∈ ct ++ "</div>".data, c ≠ '\\' := by
        intro c hc he
        subst he
        rcases List.mem_append.mp hc with h | h
        · exact hnb (List.mem_cons_of_mem c0 h)
        · revert h; decide
      have hclean : parseTplF 1 (ct.length + 6 + 1) (ct ++ ['<', '/', 'd', 'i', 'v', '>'])
          = some (List.map TplPiece.lit ct ++
            [TplPiece.lit '<', TplPiece.lit '/', TplPiece.lit 'd', TplPiece.lit 'i',
             TplPiece.lit 'v', TplPiece.lit '>']) := by
        have h0 := parseTplF_clean 1 (ct ++ "</div>".data)
          ((ct ++ "</div>".data).length + 1) (by omega) hcs
        simpa using h0
      rw [pageTplOf, parseTemplate]
      simp only [List.cons_append, List.length_cons]
      simp [parseTplF, hc0, hc0bs, hclean,
        show isDigitCh '1' = true from rfl,
        show digVal '1' = 1 from rfl]

/-- Expanding a template of plain literals yields those characters. -/
theorem tplExpand_lits (g0 g1 : List Char) :
    ∀ l : List Char, tplExpand g0 g1 (l.map .lit) = l
  | [] => rfl
  | c :: l => by rw [List.map_cons, tplExpand, tplExpand_lits g0 g1 l]

/-- Expanding a leading group-1 reference emits the capture. -/
theorem tplExpand_grp1 (g0 g1 : List Char) (rest : List TplPiece) :
    tplExpand g0 g1 (.grp 1 :: rest) = g1 ++ tplExpand g0 g1 rest := rfl

/--
C2 (amended): the fetched fragment passes through the replacement
template of `re.subn`, so backslash escapes in it are interpreted (a
`\1` expands to the captured opening tag, a bad escape such as `\U`
raises `re.error`) and a fragment whose first character is a decimal
digit extends the leading `\1` group reference; for every shell
containing exactly one empty content-placeholder element and every
fragment free of backslashes and not starting with a digit, injection
succeeds; the result is the shell with the fragment spliced into the
placeholder, then transformed by the busy-state toggle and the
bootstrap-script removal; and provided those three follow-up edits fall
outside the injected region (which a fragment carrying none of their
patterns guarantees), the result contains the fragment verbatim inside
the element, directly followed by the element's closing tag.
-/
theorem inject_content_spec (shell content : List Char)
    (h1 : cntPageContent shell = 1)
    (hnb : '\\' ∉ content)
    (hhd : isDigitCh (content.headD 'x') = false)
    (h2 : busyEditsOutside shell content = true) :
    ∃ r, inject_content shell content = some r ∧
      ∃ x y, r = x ++ (content ++ "</div>".data) ++ y := by
  -- exactly one placeholder gives a first match for the injection step
  have hiff : ∀ p t,
      (fun _ t => (matchPageContent t).map fun x => (x.1, ([] : List Char)))
        p t = none ↔ mPageContentC content p t = none := by
    intro p t
    simp only [mPageContentC, mPageContent]
    cases matchPageContent t <;> simp
  have hne0 : findFstP
      (fun _ t => (matchPageContent t).map fun x => (x.1, ([] : List Char)))
      none shell ≠ none := by
    intro hc
    have := (cntPGo_eq_zero _ shell none).mpr hc
    rw [cntPageContent, cntP] at h1
    omega
  have hne : findFstP (mPageContentC content) none shell ≠ none := by
    intro hc
    exact hne0 ((findFstP_none_congr _ _ hiff shell none).mpr hc)
  cases hF : findFstP (mPageContentC content) none shell with
  | none => exact absurd hF hne
  | some d =>
      obtain ⟨pos, len, rep⟩ := d
      -- the match data comes from the matcher at the matching suffix
      obtain ⟨prev', hM⟩ := findFstP_apply _ shell none pos len rep hF
      have hrep : ∃ g, matchPageContent (shell.drop pos) = some (len, g) ∧
          rep = (shell.drop pos).take g ++ content ++ "</div>".data := by
        unfold mPageContentC mPageContent at hM
        cases hMA : matchPageContent (shell.drop pos) with
        | none => rw [hMA] at hM; exact absurd hM (by simp)
        | some z =>
            rw [hMA] at hM
            obtain ⟨z1, z2⟩ := z
            simp only [Option.map_some', Option.some.injEq,
              Prod.mk.injEq] at hM
            obtain ⟨hz1, hz2⟩ := hM
            refine ⟨z2, by rw [hz1], ?_⟩
            rw [← hz2, tplExpand_grp1, tplExpand_lits]
            simp [List.append_assoc]
      obtain ⟨g, hg, hrepEq⟩ := hrep
      -- the merged text decomposes around the injected fragment
      have ht1 : sub1P (mPageContentC content) none shell =
          (shell.take pos ++ (shell.drop pos).take g) ++
            (content ++ "</div>".data) ++ shell.drop (pos + len) := by
        rw [sub1P_of_some _ shell none pos len rep hF, hrepEq]
        simp [List.append_assoc]
      -- the region start agrees with `injStart`
      have hpos := findFstP_pos_lt _ shell none pos len rep hF
      have ha1 : (shell.take pos ++ (shell.drop pos).take g).length =
          injStart shell content := by
        have h6 : ("</div>".data).length = 6 := rfl
        have hpmin : pos ⊓ shell.length = pos := Nat.min_eq_left (le_of_lt hpos)
        unfold injStart
        rw [hF, hrepEq]
        simp only [List.length_append, List.length_take, List.length_drop,
          h6, hpmin]
        omega
      -- unpack the three side conditions
      have h2' := h2
      simp only [busyEditsOutside, Bool.and_eq_true] at h2'
      obtain ⟨hB, hC, hD⟩ := h2'
      have hm : (content ++ "</div>".data).length = content.length + 6 := by
        simp
      -- step 2: the busy-class edit avoids the fragment
      have hBx : editOutsideB mMainPage
          ((shell.take pos ++ (shell.drop pos).take g) ++
            (content ++ "</div>".data) ++ shell.drop (pos + len))
          (shell.take pos ++ (shell.drop pos).take g).length
          (content ++ "</div>".data).length = true := by
        rw [ha1, hm, ← ht1]
        exact hB
      obtain ⟨x1, y1, ht2, hx1⟩ := region_preserved mMainPage _ _ _ hBx
      have ht2' : sub1P mMainPage none
          (sub1P (mPageContentC content) none shell) =
          x1 ++ (content ++ "</div>".data) ++ y1 := by
        rw [ht1]; exact ht2
      have hx1' : x1.length = shiftStart mMainPage
          (sub1P (mPageContentC content) none shell)
          (injStart shell content) := by
        rw [hx1, ← ht1, ha1]
      -- step 3: the aria-busy edit avoids the fragment
      have hCx : editOutsideB mAriaBusy
          (x1 ++ (content ++ "</div>".data) ++ y1)
          x1.length (content ++ "</div>".data).length = true := by
        rw [hx1', hm, ← ht2']
        exact hC
      obtain ⟨x2, y2, ht3, hx2⟩ := region_preserved mAriaBusy _ _ _ hCx
      have ht3' : sub1P mAriaBusy none (sub1P mMainPage none
          (sub1P (mPageContentC content) none shell)) =
          x2 ++ (content ++ "</div>".data) ++ y2 := by
        rw [ht2']; exact ht3
      have hx2' : x2.length = shiftStart mAriaBusy
          (sub1P mMainPage none (sub1P (mPageContentC content) none shell))
          (shiftStart mMainPage (sub1P (mPageContentC content) none shell)
            (injStart shell content)) := by
        rw [hx2, ← ht2', hx1']
      -- step 4: the script removal avoids the fragment
      have hDx : editOutsideB mPageJs
          (x2 ++ (content ++ "</div>".data) ++ y2)
          x2.length (content ++ "</div>".data).length = true := by
        rw [hx2', hm, ← ht3']
        exact hD
      obtain ⟨x3, y3, ht4, _⟩ := region_preserved mPageJs _ _ _ hDx
      -- assemble
      refine ⟨sub1P mPageJs none (busyToggle
        (sub1P (mPageContentC content) none shell)), ?_, x3, y3, ?_⟩
      · unfold inject_content
        rw [pageTplOf_clean content hnb hhd]
        show (match findFstP (mPageContentC content) none shell with
          | none => none
          | some _ => some (sub1P mPageJs none (busyToggle
              (sub1P (mPageContentC content) none shell)))) = _
        rw [hF]
      · unfold busyToggle
        rw [ht3', ht4]

/-- Witness for the amended C2 on a realistic shell. -/
theorem inject_content_spec_witness :
    ∃ r, inject_content
        "<main class=\"page\" aria-busy=\"true\"><div id=\"page-content\"></div></main>".data
        "<p>hi</p>".data = some r ∧
      ∃ x y, r = x ++ ("<p>hi</p>".data ++ "</div>".data) ++ y :=
  inject_content_spec _ _ (by decide) (by decide) (by decide) (by decide)

/-! ## C7 — missing bundle link aborts before any page write -/

theorem strStarts_prefix_append : ∀ (p q : List Char),
    strStarts p (p ++ q) = true
  | [], _ => rfl
  | c :: p, q => by
      rw [List.cons_append, strStarts]
      simp [strStarts_prefix_append p q]

/--
C7: when the sample shell contains no stylesheet link matching the
static bundle pattern, the run ends with a fatal outcome (non-zero
status) and the only writes performed are the verbatim `assets/` copy
and possibly `manifest.json` — no `<slug>/index.html`, no root
`index.html`, and no static asset has been written.
-/
theorem missing_bundle_aborts (env : Env) (sh : List Char)
    (h1 : sampleShellOf env = some sh)
    (h2 : extract_bundle_css_path sh = none) :
    (mainRun env).2 ≠ none ∧
    ∀ w ∈ (mainRun env).1,
      w.1 = "manifest.json".data ∨ strStarts "assets/".data w.1 := by
  have hmw : ∀ w ∈ manifestWrites env,
      w.1 = "manifest.json".data ∨ strStarts "assets/".data w.1 := by
    intro w hw
    unfold manifestWrites at hw
    cases hmf : env.fetch "/manifest.json".data with
    | some m =>
        rw [hmf] at hw
        simp at hw
        left
        rw [hw]
    | none =>
        rw [hmf] at hw
        simp at hw
  simp only [mainRun]
  by_cases hs : slugsOf env = []
  · rw [if_pos hs]
    exact ⟨by simp, by simp⟩
  · rw [if_neg hs]
    cases hrd : env.ready with
    | false =>
        rw [show (!false) = true from rfl, if_pos rfl]
        exact ⟨by simp, by simp⟩
    | true =>
        rw [show (!true) = false from rfl, if_neg (by simp)]
        cases hA : env.assets with
        | none => exact ⟨by simp, by simp⟩
        | some assets =>
            simp only [h1, h2]
            refine ⟨by simp, ?_⟩
            intro w hw
            rw [List.mem_append] at hw
            cases hw with
            | inl hw =>
                unfold assetWrites at hw
                rw [List.mem_map] at hw
                obtain ⟨f, _, rfl⟩ := hw
                exact Or.inr (strStarts_prefix_append _ _)
            | inr hw => exact hmw w hw

/-- Witness for C7: a ready environment whose sample shell has no
bundle link. -/
theorem missing_bundle_aborts_witness :
    (mainRun ⟨[("a.yml".data, some "slug: about\n".data)], true,
        some [], fun p => if p = "/about".data then some "<html>".data
          else none, []⟩).2 ≠ none ∧
    ∀ w ∈ (mainRun ⟨[("a.yml".data, some "slug: about\n".data)], true,
        some [], fun p => if p = "/about".data then some "<html>".data
          else none, []⟩).1,
      w.1 = "manifest.json".data ∨ strStarts "assets/".data w.1 :=
  missing_bundle_aborts _ "<html>".data (by decide) (by decide)

/-! ## C9 — the site-root document -/

set_option maxRecDepth 40000 in
/-- C9 (counterexample): a successful run without a `home` slug can
still write `<output>/index.html` — a stylesheet `url(/index.html)`
dependency is downloaded to exactly that path. -/
theorem root_written_without_home :
    "home".data ∉ slugsOf envNoHomeRoot ∧
    (mainRun envNoHomeRoot).2 = none ∧
    "index.html".data ∈ (mainRun envNoHomeRoot).1.map Prod.fst := by
  refine ⟨by decide, by decide, by decide⟩

/-! ### `lastWrite` algebra -/

theorem lastWrite_append (a b : List (List Char × List Char))
    (p : List Char) :
    lastWrite (a ++ b) p = (lastWrite b p).or (lastWrite a p) := by
  unfold lastWrite
  rw [List.filter_append, List.getLast?_append]
  cases (List.filter (fun w => decide (w.1 = p)) b).getLast? <;>
    simp [Option.or]

theorem lastWrite_eq_none_iff (l : List (List Char × List Char))
    (p : List Char) :
    lastWrite l p = none ↔ ∀ w ∈ l, w.1 ≠ p := by
  unfold lastWrite
  rw [Option.map_eq_none', List.getLast?_eq_none_iff, List.filter_eq_nil_iff]
  simp

theorem lastWrite_ne_none_iff (l : List (List Char × List Char))
    (p : List Char) :
    lastWrite l p ≠ none ↔ ∃ w ∈ l, w.1 = p := by
  rw [ne_eq, lastWrite_eq_none_iff]
  push_neg
  rfl

theorem lastWrite_rewritePass (bp : List Char)
    (ws : List (List Char × List Char)) (p : List Char) :
    lastWrite (rewritePass bp ws) p =
      (lastWrite ws p).map
        (fun c => if rewritable p then rewrite_base_paths c bp else c) := by
  induction ws with
  | nil => rfl
  | cons w ws ih =>
      have hsplit : rewritePass bp (w :: ws) =
          rewritePass bp [w] ++ rewritePass bp ws := rfl
      have hw : (w :: ws) = [w] ++ ws := rfl
      rw [hsplit, hw, lastWrite_append, lastWrite_append, ih]
      have hsingle : lastWrite (rewritePass bp [w]) p =
          (lastWrite [w] p).map
            (fun c => if rewritable p then rewrite_base_paths c bp else c) := by
        unfold rewritePass lastWrite
        by_cases hp : w.1 = p
        · subst hp
          by_cases hr : rewritable w.1 <;> simp [hr]
        · by_cases hr : rewritable w.1 <;> simp [hr, hp]
      rw [hsingle]
      cases lastWrite ws p <;> cases lastWrite [w] p <;> simp [Option.or]

/-! ### Slug facts -/

theorem slugLine_ne_nil {line v : List Char} (h : slugLine line = some v) :
    v ≠ [] := by
  simp only [slugLine] at h
  split_ifs at h with h1 h2
  · injection h with h'
    rw [← h']
    exact h2.1

theorem configSlugs_ne_nil {cfg : ConfigDir} :
    ∀ s ∈ configSlugs cfg, s ≠ [] := by
  intro s hs
  unfold configSlugs at hs
  rw [List.mem_flatten] at hs
  obtain ⟨l, hl, hsl⟩ := hs
  rw [List.mem_map] at hl
  obtain ⟨f, _, rfl⟩ := hl
  cases hf : f.2 with
  | none => rw [hf] at hsl; simp at hsl
  | some text =>
      rw [hf] at hsl
      unfold fileSlugs at hsl
      rw [List.mem_filterMap] at hsl
      obtain ⟨line, _, hline⟩ := hsl
      exact slugLine_ne_nil hline

theorem discover_slugs_mem {cfg : ConfigDir} {s : List Char}
    (h : s ∈ discover_slugs cfg) : s ∈ configSlugs cfg := by
  rw [discover_slugs_eq] at h
  by_cases hh : "home".data ∈ dedupFirst (configSlugs cfg)
  · rw [if_pos hh] at h
    rcases List.mem_cons.mp h with rfl | h
    · exact dedupFirst_mem.mp hh
    · exact dedupFirst_mem.mp (List.mem_filter.mp h).1
  · rw [if_neg hh] at h
    exact dedupFirst_mem.mp h

theorem slugsOf_ne_nil (env : Env) : ∀ s ∈ slugsOf env, s ≠ [] :=
  fun s hs => configSlugs_ne_nil s (discover_slugs_mem hs)

theorem discover_slugs_nodup (cfg : ConfigDir) :
    (discover_slugs cfg).Nodup := by
  rw [discover_slugs_eq]
  by_cases hh : "home".data ∈ dedupFirst (configSlugs cfg)
  · rw [if_pos hh]
    refine List.nodup_cons.mpr ⟨?_, (dedupFirst_nodup _).filter _⟩
    intro hc
    simp [List.mem_filter] at hc
  · rw [if_neg hh]
    exact dedupFirst_nodup _

/-- A nonempty string prefixed to `/index.html` never equals the bare
root path. -/
theorem slug_path_ne_root {s : List Char} (hs : s ≠ []) :
    s ++ "/index.html".data ≠ "index.html".data := by
  intro hc
  have hlen := congrArg List.length hc
  rw [List.length_append] at hlen
  have h11 : ("/index.html".data).length = 11 := rfl
  have h10 : ("index.html".data).length = 10 := rfl
  rw [h11, h10] at hlen
  have hpos : 0 < s.length := List.length_pos.mpr hs
  omega

theorem slug_path_inj {s t : List Char}
    (h : s ++ "/index.html".data = t ++ "/index.html".data) : s = t :=
  List.append_cancel_right h

/-! ### Structure of the page-assembly loop -/

/-- Inversion of a successful loop step. -/
theorem pagesLoop_ok_cons {fetch : Fetch} {slug : List Char}
    {rest : List (List Char)} {pw : List (List Char × List Char)}
    (h : pagesLoop fetch (slug :: rest) = (pw, none)) :
    ∃ page pw', pagesLoop fetch rest = (pw', none) ∧
      pw = ((slug ++ "/index.html".data, page) ::
        (if slug = "home".data then [("index.html".data, page)] else [])) ++
        pw' := by
  rw [pagesLoop] at h
  cases h1 : fetch ('/' :: slug) with
  | none => rw [h1] at h; simp at h
  | some shell =>
      simp only [h1] at h
      cases h2 : fetch ("/api/pages/".data ++ slug ++ "/content/".data) with
      | none => rw [h2] at h; simp at h
      | some content =>
          simp only [h2] at h
          cases h3 : inject_content shell content with
          | none => rw [h3] at h; simp at h
          | some page =>
              simp only [h3] at h
              cases h4 : pagesLoop fetch rest with
              | mk pw' e =>
                  simp only [h4, Prod.mk.injEq] at h
                  exact ⟨page, pw', by rw [h.2], h.1.symm⟩

/-- Every path the loop writes is a slug page path, or the root path
when `home` is among the slugs. -/
theorem pagesLoop_writes {fetch : Fetch} :
    ∀ {slugs : List (List Char)} {pw : List (List Char × List Char)},
      pagesLoop fetch slugs = (pw, none) →
      ∀ w ∈ pw, (w.1 = "index.html".data ∧ "home".data ∈ slugs) ∨
        ∃ s ∈ slugs, w.1 = s ++ "/index.html".data
  | [], pw, h, w, hw => by
      rw [pagesLoop] at h
      simp only [Prod.mk.injEq] at h
      rw [← h.1] at hw
      simp at hw
  | slug :: rest, pw, h, w, hw => by
      obtain ⟨page, pw', hrest, rfl⟩ := pagesLoop_ok_cons h
      rw [List.mem_append] at hw
      cases hw with
      | inl hw =>
          rcases List.mem_cons.mp hw with rfl | hw
          · exact Or.inr ⟨slug, List.mem_cons_self _ _, rfl⟩
          · by_cases hh : slug = "home".data
            · rw [if_pos hh] at hw
              simp at hw
              subst hw
              exact Or.inl ⟨rfl, by rw [← hh]; exact List.mem_cons_self _ _⟩
            · rw [if_neg hh] at hw
              simp at hw
      | inr hw =>
          rcases pagesLoop_writes hrest w hw with ⟨h1, h2⟩ | ⟨s, hs, h1⟩
          · exact Or.inl ⟨h1, List.mem_cons_of_mem _ h2⟩
          · exact Or.inr ⟨s, List.mem_cons_of_mem _ hs, h1⟩

/-- The loop writes the root document exactly when `home` is among the
slugs. -/
theorem pagesLoop_root {fetch : Fetch} :
    ∀ {slugs : List (List Char)} {pw : List (List Char × List Char)},
      pagesLoop fetch slugs = (pw, none) →
      (∀ s ∈ slugs, s ≠ []) →
      (lastWrite pw "index.html".data ≠ none ↔ "home".data ∈ slugs)
  | [], pw, h, _ => by
      rw [pagesLoop] at h
      simp only [Prod.mk.injEq] at h
      rw [← h.1]
      simp [lastWrite]
  | slug :: rest, pw, h, hne => by
      obtain ⟨page, pw', hrest, rfl⟩ := pagesLoop_ok_cons h
      have hne' : ∀ s ∈ rest, s ≠ [] :=
        fun s hs => hne s (List.mem_cons_of_mem _ hs)
      have IH := pagesLoop_root hrest hne'
      have hslug : slug ≠ [] := hne slug (List.mem_cons_self _ _)
      rw [lastWrite_append]
      by_cases hh : slug = "home".data
      · subst hh
        have hhere : lastWrite
            (("home".data ++ "/index.html".data, page) ::
              (if ("home".data : List Char) = "home".data
               then [("index.html".data, page)] else []))
            "index.html".data = some page := by
          rw [if_pos rfl]
          unfold lastWrite
          rw [List.filter_cons, List.filter_cons]
          simp [slug_path_ne_root hslug]
        rw [hhere]
        cases hl : lastWrite pw' "index.html".data <;>
          simp [Option.or, List.mem_cons]
      · have hhere : lastWrite
            ((slug ++ "/index.html".data, page) ::
              (if slug = "home".data
               then [("index.html".data, page)] else []))
            "index.html".data = none := by
          rw [if_neg hh]
          unfold lastWrite
          rw [List.filter_cons]
          simp [slug_path_ne_root hslug]
        rw [hhere]
        cases hl : lastWrite pw' "index.html".data with
        | none =>
            rw [hl] at IH
            have hnotmem : "home".data ∉ rest :=
              fun hmem => (IH.mpr hmem) rfl
            simp only [Option.or, ne_eq, not_true_eq_false, false_iff]
            intro hcon
            rcases List.mem_cons.mp hcon with hcon | hcon
            · exact hh hcon.symm
            · exact hnotmem hcon
        | some d =>
            rw [hl] at IH
            have hmem : "home".data ∈ rest := IH.mp (by simp)
            simp only [Option.or, ne_eq]
            constructor
            · intro _
              exact List.mem_cons_of_mem _ hmem
            · intro _
              simp

/-- When the loop writes the root document, its content is the `home`
page, which is also at `home/index.html`. -/
theorem pagesLoop_home_content {fetch : Fetch} :
    ∀ {slugs : List (List Char)} {pw : List (List Char × List Char)},
      pagesLoop fetch slugs = (pw, none) →
      (∀ s ∈ slugs, s ≠ []) → slugs.Nodup →
      ∀ c, lastWrite pw "index.html".data = some c →
        lastWrite pw "home/index.html".data = some c
  | [], pw, h, _, _, c => by
      rw [pagesLoop] at h
      simp only [Prod.mk.injEq] at h
      rw [← h.1]
      simp [lastWrite]
  | slug :: rest, pw, h, hne, hnd, c => by
      intro hc
      obtain ⟨page, pw', hrest, rfl⟩ := pagesLoop_ok_cons h
      have hne' : ∀ s ∈ rest, s ≠ [] :=
        fun s hs => hne s (List.mem_cons_of_mem _ hs)
      have hnd' : rest.Nodup := (List.nodup_cons.mp hnd).2
      have hslug : slug ≠ [] := hne slug (List.mem_cons_self _ _)
      rw [lastWrite_append] at hc ⊢
      by_cases hh : slug = "home".data
      · subst hh
        have hmem : "home".data ∉ rest := (List.nodup_cons.mp hnd).1
        have hpw'r : lastWrite pw' "index.html".data = none := by
          by_contra hcon
          exact hmem ((pagesLoop_root hrest hne').mp hcon)
        have hpw'h : lastWrite pw' ("home/index.html".data) = none := by
          rw [lastWrite_eq_none_iff]
          intro w hw hwp
          rcases pagesLoop_writes hrest w hw with ⟨h1, h2⟩ | ⟨s, hs, h1⟩
          · rw [h1] at hwp
            exact absurd hwp (by decide)
          · rw [h1] at hwp
            have : s = "home".data := slug_path_inj hwp
            rw [this] at hs
            exact hmem hs
        rw [hpw'r] at hc
        rw [hpw'h]
        have hhere : lastWrite
            [(("home".data : List Char) ++ "/index.html".data, page),
             ("index.html".data, page)] "index.html".data = some page := by
          unfold lastWrite
          rw [List.filter_cons, List.filter_cons]
          simp [slug_path_ne_root hslug]
        have hpath : ("home".data : List Char) ++ "/index.html".data =
            "home/index.html".data := by decide
        have hhereH : lastWrite
            [(("home".data : List Char) ++ "/index.html".data, page),
             ("index.html".data, page)] "home/index.html".data =
            some page := by
          rw [hpath]
          unfold lastWrite
          rw [List.filter_cons, List.filter_cons]
          simp [show ¬(("index.html".data : List Char) =
            "home/index.html".data) from by decide]
        rw [if_pos rfl] at hc ⊢
        rw [hhere] at hc
        rw [hhereH]
        simp only [Option.or] at hc ⊢
        exact hc
      · rw [if_neg hh] at hc ⊢
        have hhere : ∀ q : List Char, q = "index.html".data ∨
            q = "home/index.html".data →
            lastWrite [(slug ++ "/index.html".data, page)] q = none := by
          intro q hq
          unfold lastWrite
          rw [List.filter_cons]
          rcases hq with rfl | rfl
          · simp [slug_path_ne_root hslug]
          · have : slug ++ "/index.html".data ≠ "home/index.html".data := by
              intro hcon
              exact hh (slug_path_inj hcon)
            simp [this]
        rw [hhere _ (Or.inl rfl)] at hc
        rw [hhere _ (Or.inr rfl)]
        simp only [Option.or] at hc ⊢
        cases hl : lastWrite pw' "index.html".data with
        | none => rw [hl] at hc; exact absurd hc (by simp)
        | some d =>
            rw [hl] at hc
            have := pagesLoop_home_content hrest hne' hnd' c (by rw [hl]; exact hc)
            rw [this]

/-- Every slug's page file is written by a successful loop. -/
theorem pagesLoop_slug_written {fetch : Fetch} :
    ∀ {slugs : List (List Char)} {pw : List (List Char × List Char)},
      pagesLoop fetch slugs = (pw, none) →
      ∀ s ∈ slugs, lastWrite pw (s ++ "/index.html".data) ≠ none
  | [], pw, h, s, hs => by simp at hs
  | slug :: rest, pw, h, s, hs => by
      obtain ⟨page, pw', hrest, rfl⟩ := pagesLoop_ok_cons h
      rw [lastWrite_append]
      rcases List.mem_cons.mp hs with rfl | hs
      · have hhere : lastWrite
            ((s ++ "/index.html".data, page) ::
              (if s = "home".data then [("index.html".data, page)] else []))
            (s ++ "/index.html".data) ≠ none := by
          rw [lastWrite_ne_none_iff]
          exact ⟨_, List.mem_cons_self _ _, rfl⟩
        cases hl : lastWrite pw' (s ++ "/index.html".data) with
        | none =>
            simpa [Option.or, hl] using hhere
        | some d => simp [Option.or]
      · have := pagesLoop_slug_written hrest s hs
        cases hl : lastWrite pw' (s ++ "/index.html".data) with
        | none => exact absurd hl this
        | some d => simp [Option.or]

/-- Inversion of a successful run: every stage succeeded and the final
writes are the rewrite pass over the concatenated stage writes. -/
theorem mainRun_ok_inv (env : Env) (ws : List (List Char × List Char))
    (h : mainRun env = (ws, none)) :
    ∃ assets shell bpath cw fw pw,
      env.assets = some assets ∧
      sampleShellOf env = some shell ∧
      extract_bundle_css_path shell = some bpath ∧
      download_static_css_and_deps env.fetch bpath = (cw, fw, false) ∧
      pagesLoop env.fetch (slugsOf env) = (pw, none) ∧
      ws = rewritePass (normalize_base_path env.basePath)
        (assetWrites assets ++ manifestWrites env ++ cw ++ pw ++
          [(".nojekyll".data, [])]) := by
  simp only [mainRun] at h
  by_cases hs : slugsOf env = []
  · rw [if_pos hs] at h
    simp at h
  · rw [if_neg hs] at h
    cases hrd : env.ready with
    | false => rw [hrd] at h; simp at h
    | true =>
        rw [hrd] at h
        rw [show (!true) = false from rfl, if_neg (by simp)] at h
        cases hA : env.assets with
        | none => rw [hA] at h; simp at h
        | some assets =>
            simp only [hA] at h
            cases hsh : sampleShellOf env with
            | none => rw [hsh] at h; simp at h
            | some shell =>
                simp only [hsh] at h
                cases hbp : extract_bundle_css_path shell with
                | none => rw [hbp] at h; simp at h
                | some bpath =>
                    simp only [hbp] at h
                    cases hdl : download_static_css_and_deps env.fetch bpath with
                    | mk cw rest =>
                        cases rest with
                        | mk fw cerr =>
                            simp only [hdl] at h
                            cases cerr with
                            | true => simp at h
                            | false =>
                                simp only [Bool.false_eq_true, if_false] at h
                                cases hpl : pagesLoop env.fetch (slugsOf env) with
                                | mk pw perr =>
                                    simp only [hpl] at h
                                    cases perr with
                                    | some e => simp at h
                                    | none =>
                                        simp only [Prod.mk.injEq] at h
                                        exact ⟨assets, shell, bpath, cw, fw,
                                          pw, rfl, rfl, hbp, hdl, rfl, h.1.symm⟩

/--
C9 (amended): in a successful run none of whose stylesheet-dependency
writes lands on the root path, the site-root `index.html` exists exactly
when `home` is among the discovered slugs; when it exists it is
byte-identical to `home/index.html`; and every discovered slug's
`<slug>/index.html` is written.  (Without the proviso, a stylesheet
`url(/index.html)` reference also produces a root document.)
-/
theorem root_document_iff_home (env : Env)
    (ws : List (List Char × List Char))
    (hok : mainRun env = (ws, none))
    (hcss : ∀ q ∈ cssDepWritePaths env, q ≠ "index.html".data) :
    (("home".data ∈ slugsOf env) ↔ lastWrite ws "index.html".data ≠ none) ∧
    (∀ c, lastWrite ws "index.html".data = some c →
      lastWrite ws "home/index.html".data = some c) ∧
    (∀ s ∈ slugsOf env, lastWrite ws (s ++ "/index.html".data) ≠ none) := by
  obtain ⟨assets, shell, bpath, cw, fw, pw, hA, hsh, hbp, hdl, hpl, hws⟩ :=
    mainRun_ok_inv env ws hok
  have hne : ∀ s ∈ slugsOf env, s ≠ [] := slugsOf_ne_nil env
  have hnd : (slugsOf env).Nodup := discover_slugs_nodup env.config
  -- the hypothesis, restated against the downloaded writes
  have hbund : bundlePathOf env = some bpath := by
    unfold bundlePathOf
    rw [hsh]
    exact hbp
  have hcw : ∀ w ∈ cw, w.1 ≠ "index.html".data := by
    intro w hw
    refine hcss w.1 ?_
    unfold cssDepWritePaths
    rw [hbund]
    show w.1 ∈ List.map (fun x => x.1)
      (download_static_css_and_deps env.fetch bpath).1
    rw [hdl]
    exact List.mem_map_of_mem _ hw
  -- which stages cannot write a given path
  have hnone : ∀ p : List Char, p ≠ ".nojekyll".data →
      lastWrite [(".nojekyll".data, ([] : List Char))] p = none := by
    intro p hp
    rw [lastWrite_eq_none_iff]
    intro w hw
    simp only [List.mem_singleton] at hw
    rw [hw]
    exact fun hc => hp hc.symm
  have hmwn : ∀ p : List Char, p ≠ "manifest.json".data →
      lastWrite (manifestWrites env) p = none := by
    intro p hp
    rw [lastWrite_eq_none_iff]
    intro w hw
    unfold manifestWrites at hw
    cases hmf : env.fetch "/manifest.json".data with
    | none => rw [hmf] at hw; simp at hw
    | some m =>
        rw [hmf] at hw
        simp only [List.mem_singleton] at hw
        rw [hw]
        exact fun hc => hp hc.symm
  have hawn : ∀ p : List Char, p.take 7 ≠ "assets/".data →
      lastWrite (assetWrites assets) p = none := by
    intro p hp
    rw [lastWrite_eq_none_iff]
    intro w hw
    unfold assetWrites at hw
    rw [List.mem_map] at hw
    obtain ⟨f, _, rfl⟩ := hw
    intro hc
    apply hp
    rw [← hc]
    rw [show (7 : Nat) = ("assets/".data : List Char).length from rfl]
    rw [List.take_left]
  have hcwn : lastWrite cw "index.html".data = none :=
    (lastWrite_eq_none_iff _ _).mpr hcw
  -- the final write trace splits into the stage traces
  have hall : ∀ p : List Char,
      lastWrite (assetWrites assets ++ manifestWrites env ++ cw ++ pw ++
        [(".nojekyll".data, ([] : List Char))]) p =
      (lastWrite [(".nojekyll".data, ([] : List Char))] p).or
        ((lastWrite pw p).or ((lastWrite cw p).or
          ((lastWrite (manifestWrites env) p).or
            (lastWrite (assetWrites assets) p)))) := by
    intro p
    rw [lastWrite_append, lastWrite_append, lastWrite_append, lastWrite_append]
  have hri : rewritable "index.html".data = true := by decide
  have hrh : rewritable "home/index.html".data = true := by decide
  refine ⟨?_, ?_, ?_⟩
  · -- the root document exists iff `home` is a slug
    rw [hws, lastWrite_rewritePass, ne_eq, Option.map_eq_none']
    rw [hall, hnone _ (by decide), hcwn, hmwn _ (by decide),
      hawn _ (by decide)]
    have hor : (none : Option (List Char)).or
        ((lastWrite pw "index.html".data).or
          ((none : Option (List Char)).or
            ((none : Option (List Char)).or
              (none : Option (List Char))))) =
        lastWrite pw "index.html".data := by
      cases lastWrite pw "index.html".data <;> simp [Option.or]
    rw [hor, ← ne_eq]
    exact (pagesLoop_root hpl hne).symm
  · -- the root document is the `home` page
    intro c hc
    rw [hws, lastWrite_rewritePass, Option.map_eq_some'] at hc
    obtain ⟨c₀, hc₀, hgc⟩ := hc
    rw [hall, hnone _ (by decide), hcwn, hmwn _ (by decide),
      hawn _ (by decide)] at hc₀
    have hor : (none : Option (List Char)).or
        ((lastWrite pw "index.html".data).or
          ((none : Option (List Char)).or
            ((none : Option (List Char)).or
              (none : Option (List Char))))) =
        lastWrite pw "index.html".data := by
      cases lastWrite pw "index.html".data <;> simp [Option.or]
    rw [hor] at hc₀
    have hhome := pagesLoop_home_content hpl hne hnd c₀ hc₀
    rw [hws, lastWrite_rewritePass, hall, hnone _ (by decide), hhome]
    have hor2 : (none : Option (List Char)).or ((some c₀).or
        ((lastWrite cw "home/index.html".data).or
          ((lastWrite (manifestWrites env) "home/index.html".data).or
            (lastWrite (assetWrites assets) "home/index.html".data)))) =
        some c₀ := rfl
    rw [hor2]
    rw [if_pos hri] at hgc
    simp only [Option.map_some']
    rw [if_pos hrh, hgc]
  · -- every slug's page file is written
    intro s hs
    have hsne : s ≠ [] := hne s hs
    rw [hws, lastWrite_rewritePass, ne_eq, Option.map_eq_none', hall]
    have hpj : s ++ "/index.html".data ≠ ".nojekyll".data := by
      intro hcon
      have hlen := congrArg List.length hcon
      rw [List.length_append] at hlen
      have h1 : ("/index.html".data).length = 11 := rfl
      have h2 : ((".nojekyll".data : List Char)).length = 9 := rfl
      rw [h1, h2] at hlen
      omega
    rw [hnone _ hpj]
    have hsw := pagesLoop_slug_written hpl s hs
    cases hl : lastWrite pw (s ++ "/index.html".data) with
    | none => exact absurd hl hsw
    | some d => simp [Option.or]

set_option maxRecDepth 40000 in
/-- Witness for the amended C9 on a successful run with a `home` slug
and a dependency-free stylesheet. -/
theorem root_document_iff_home_witness :
    (("home".data ∈ slugsOf envHomeRoot) ↔
      lastWrite (mainRun envHomeRoot).1 "index.html".data ≠ none) ∧
    (∀ c, lastWrite (mainRun envHomeRoot).1 "index.html".data = some c →
      lastWrite (mainRun envHomeRoot).1 "home/index.html".data = some c) ∧
    (∀ s ∈ slugsOf envHomeRoot,
      lastWrite (mainRun envHomeRoot).1 (s ++ "/index.html".data) ≠ none) :=
  root_document_iff_home envHomeRoot (mainRun envHomeRoot).1
    (by decide) (by decide)

/-! ## C1: base-path rewriting over an abstract base path

Soundness of the three Bool certificates `certHead`, `certBp`,
`certTail`: together they let a single scan over
`c1 ++ base_path ++ c2` be split, with the pattern provably unable to
fire at any position, for every base path `'/' :: tl` made of safe
characters. -/

theorem atomBlocked_sound {a : PatAtom} {c : Char} (hb : atomBlockedB a = true)
    (hs : safeBpChar c = true) : atomM a c = false := by
  cases a with
  | exact d =>
      by_cases hdc : d = c
      · subst hdc
        simp only [atomBlockedB, hs] at hb
        exact absurd hb (by decide)
      · simp [atomM, hdc]
  | ci d => simp [atomBlockedB] at hb
  | quo =>
      show quoteChar c = false
      by_cases h1 : c = '\''
      · subst h1; exact absurd hs (by decide)
      · by_cases h2 : c = '"'
        · subst h2; exact absurd hs (by decide)
        · simp [quoteChar, h1, h2]

/-- A pattern containing a blocked atom cannot match when at least its
own length of all-safe characters lies ahead. -/
theorem patM_long_false : ∀ (p : List PatAtom) (t z : List Char),
    (∀ c ∈ t, safeBpChar c = true) → p.any atomBlockedB = true →
    p.length ≤ t.length → patM p (t ++ z) = false
  | [], _, _, _, hany, _ => by simp at hany
  | _ :: _, [], _, _, _, hlen => by
      simp only [List.length_cons, List.length_nil] at hlen; omega
  | a :: p, c :: t, z, hsafe, hany, hlen => by
      rw [List.cons_append, patM]
      by_cases hb : atomBlockedB a = true
      · rw [atomBlocked_sound hb (hsafe c (List.mem_cons_self c t))]
        rfl
      · have hany' : p.any atomBlockedB = true := by
          rcases List.any_eq_true.mp hany with ⟨x, hx, hbx⟩
          rcases List.mem_cons.mp hx with rfl | hx'
          · exact absurd hbx hb
          · exact List.any_eq_true.mpr ⟨x, hx', hbx⟩
        rw [patM_long_false p t z (fun d hd => hsafe d (List.mem_cons_of_mem c hd))
            hany' (by simp only [List.length_cons] at hlen; omega)]
        simp

/-- A match that begins on an all-safe stretch `t` consumes only
non-blocked atoms there and continues with the pattern's tail on the
following text. -/
theorem patM_short : ∀ (t : List Char) (p : List PatAtom) (z : List Char),
    patM p (t ++ z) = true → t.length ≤ p.length →
    (∀ c ∈ t, safeBpChar c = true) →
    ((p.take t.length).all fun a => !atomBlockedB a) = true ∧
      patM (p.drop t.length) z = true
  | [], p, z, h, _, _ => ⟨by simp, by simpa using h⟩
  | c :: t, [], z, _, hlen, _ => by
      simp only [List.length_cons, List.length_nil] at hlen; omega
  | c :: t, a :: p, z, h, hlen, hsafe => by
      rw [List.cons_append, patM, Bool.and_eq_true] at h
      obtain ⟨h1, h2⟩ := h
      obtain ⟨ih1, ih2⟩ := patM_short t p z h2
        (by simp only [List.length_cons] at hlen; omega)
        (fun d hd => hsafe d (List.mem_cons_of_mem c hd))
      refine ⟨?_, ?_⟩
      · rw [List.length_cons, List.take_succ_cons, List.all_cons, ih1]
        have hnb : atomBlockedB a = false := by
          cases hba : atomBlockedB a
          · rfl
          · rw [atomBlocked_sound hba (hsafe c (List.mem_cons_self c t))] at h1
            exact absurd h1 (by decide)
        rw [hnb]
        rfl
      · rw [List.length_cons, List.drop_succ_cons]
        exact ih2

/-- Splitting a prefix match at a boundary inside the text. -/
theorem patM_split : ∀ (t : List Char) (p : List PatAtom) (z : List Char),
    t.length ≤ p.length →
    patM p (t ++ z) = (patM (p.take t.length) t && patM (p.drop t.length) z)
  | [], p, z, _ => by simp [patM]
  | c :: t, [], z, hlen => by
      simp only [List.length_cons, List.length_nil] at hlen; omega
  | c :: t, a :: p, z, hlen => by
      rw [List.cons_append, patM, List.length_cons, List.take_succ_cons,
        List.drop_succ_cons, patM,
        patM_split t p z (by simp only [List.length_cons] at hlen; omega),
        Bool.and_assoc]

/-- A prefix match only inspects the pattern's length of text. -/
theorem patM_ge : ∀ (p : List PatAtom) (t z : List Char),
    p.length ≤ t.length → patM p (t ++ z) = patM p t
  | [], _, _, _ => by simp [patM]
  | a :: p, [], z, hlen => by
      simp only [List.length_cons, List.length_nil] at hlen; omega
  | a :: p, c :: t, z, hlen => by
      rw [List.cons_append, patM, patM,
        patM_ge p t z (by simp only [List.length_cons] at hlen; omega)]

theorem fireB_false_of_patM {p : List PatAtom} {neg : Bool} {s : List Char}
    (h : patM p s = false) : fireB p neg s = false := by
  rw [fireB, h]
  rfl

theorem drop_append_of_le {α : Type} (l₁ l₂ : List α) (n : Nat)
    (h : n ≤ l₁.length) : (l₁ ++ l₂).drop n = l₁.drop n ++ l₂ := by
  rw [List.drop_append_eq_append_drop, Nat.sub_eq_zero_of_le h, List.drop_zero]

/-- When the text ahead is longer than the pattern, appended text does
not change whether the pattern fires. -/
theorem fireB_append_lt {p : List PatAtom} {neg : Bool} {t z : List Char}
    (h : p.length < t.length) : fireB p neg (t ++ z) = fireB p neg t := by
  rw [fireB, fireB, patM_ge p t z (Nat.le_of_lt h)]
  have hne : t.drop p.length ≠ [] := by
    intro hcon
    have hl := congrArg List.length hcon
    rw [List.length_drop, List.length_nil] at hl
    omega
  have hh : ((t ++ z).drop p.length).head? = (t.drop p.length).head? := by
    rw [drop_append_of_le t z p.length (Nat.le_of_lt h)]
    obtain ⟨a, r, har⟩ := List.exists_cons_of_ne_nil hne
    rw [har, List.cons_append]
    rfl
  rw [hh]

/-- Exactly at the boundary, a following `/` makes the `(?!/)`
lookahead fail (and with no lookahead, a non-match is required). -/
theorem fireB_append_eq {p : List PatAtom} {neg : Bool} {t z : List Char}
    (hlen : p.length = t.length) (hz : z.head? = some '/')
    (hcond : (neg || !patM p t) = true) : fireB p neg (t ++ z) = false := by
  rw [fireB, patM_ge p t z (Nat.le_of_eq hlen)]
  have hdrop : (t ++ z).drop p.length = z := by
    rw [hlen, drop_append_of_le t z t.length (Nat.le_refl _), List.drop_length,
      List.nil_append]
  rw [hdrop, hz]
  cases neg with
  | false =>
      rw [Bool.false_or, Bool.not_eq_true'] at hcond
      show (patM p t && true) = false
      rw [hcond]
      rfl
  | true =>
      show (patM p t && false) = false
      exact Bool.and_false _

theorem certTail_sound {p : List PatAtom} {neg : Bool} {c : List Char}
    (h : certTail p neg c = true) :
    ∀ i, i < c.length → fireB p neg (c.drop i) = false := by
  intro i hi
  rw [certTail, List.all_eq_true] at h
  have hk := h i (List.mem_range.mpr hi)
  simpa using hk

theorem certBp_sound {p : List PatAtom} {c2 : List Char}
    (h : certBp p c2 = true) (bp : List Char)
    (hsafe : ∀ c ∈ bp, safeBpChar c = true) :
    ∀ j, j < bp.length → ∀ neg, fireB p neg (bp.drop j ++ c2) = false := by
  intro j hj neg
  apply fireB_false_of_patM
  rw [certBp, Bool.and_eq_true] at h
  obtain ⟨hany, hrange⟩ := h
  have htsafe : ∀ c ∈ bp.drop j, safeBpChar c = true :=
    fun c hc => hsafe c (List.mem_of_mem_drop hc)
  have htlen : 1 ≤ (bp.drop j).length := by
    rw [List.length_drop]; omega
  by_cases hcase : p.length ≤ (bp.drop j).length
  · exact patM_long_false p (bp.drop j) c2 htsafe hany hcase
  · cases hpm : patM p (bp.drop j ++ c2) with
    | false => rfl
    | true =>
        exfalso
        obtain ⟨hall, hdrop⟩ := patM_short (bp.drop j) p c2 hpm
          (Nat.le_of_lt (Nat.lt_of_not_le hcase)) htsafe
        rw [List.all_eq_true] at hrange
        have hk := hrange (bp.drop j).length
          (List.mem_range.mpr (Nat.lt_of_not_le hcase))
        simp only [hall, hdrop, Bool.not_true, Bool.or_false, Bool.false_or,
          decide_eq_true_eq] at hk
        omega

theorem certHead_sound {p : List PatAtom} {neg : Bool} {c1 : List Char}
    (h : certHead p neg c1 = true) (z : List Char) (hz : z.head? = some '/') :
    ∀ i, i < c1.length → fireB p neg (c1.drop i ++ z) = false := by
  intro i hi
  rw [certHead, List.all_eq_true] at h
  have hk := h i (List.mem_range.mpr hi)
  by_cases h1 : p.length < (c1.drop i).length
  · rw [if_pos h1, Bool.not_eq_true'] at hk
    rw [fireB_append_lt h1]
    exact hk
  · by_cases h2 : p.length = (c1.drop i).length
    · rw [if_neg h1, if_pos h2] at hk
      exact fireB_append_eq h2 hz hk
    · rw [if_neg h1, if_neg h2, Bool.not_eq_true'] at hk
      have hlt : (c1.drop i).length < p.length := by omega
      apply fireB_false_of_patM
      cases hpm : patM p (c1.drop i ++ z) with
      | false => rfl
      | true =>
          exfalso
          rw [patM_split (c1.drop i) p z (Nat.le_of_lt hlt),
            Bool.and_eq_true] at hpm
          obtain ⟨hp1, hp2⟩ := hpm
          cases z with
          | nil => simp at hz
          | cons zc z' =>
              have hzc : zc = '/' := by simpa using hz
              subst hzc
              cases hpd : p.drop (c1.drop i).length with
              | nil =>
                  have hl := congrArg List.length hpd
                  rw [List.length_drop, List.length_nil] at hl
                  omega
              | cons a p' =>
                  rw [hpd, patM, Bool.and_eq_true] at hp2
                  have hhd : (p.drop (c1.drop i).length).headD (.exact ' ') = a := by
                    rw [hpd]; rfl
                  rw [hhd] at hk
                  rw [hp1, hp2.1] at hk
                  exact absurd hk (by decide)

/-- A scan passes unchanged over a stretch at whose positions the
pattern provably does not fire. -/
theorem subAGo_pass (p : List PatAtom) (neg : Bool)
    (rep : List Char → List Char) :
    ∀ (a b : List Char),
      (∀ i, i < a.length → fireB p neg (a.drop i ++ b) = false) →
      subAGo p neg rep 0 (a ++ b) = a ++ subAGo p neg rep 0 b
  | [], b, _ => by rw [List.nil_append, List.nil_append]
  | c :: a, b, h => by
      have h0 : fireB p neg (c :: (a ++ b)) = false := by
        have hx := h 0 (Nat.succ_pos _)
        rwa [List.drop_zero, List.cons_append] at hx
      rw [List.cons_append]
      simp only [subAGo, h0, Bool.false_eq_true, if_false]
      rw [subAGo_pass p neg rep a b (fun i hi => by
        have hx := h (i + 1) (by simp only [List.length_cons]; omega)
        rwa [List.drop_succ_cons] at hx)]
      rfl

/-- A scan in which the pattern fires nowhere is the identity. -/
theorem subAGo_id (p : List PatAtom) (neg : Bool)
    (rep : List Char → List Char) :
    ∀ (s : List Char),
      (∀ i, i < s.length → fireB p neg (s.drop i) = false) →
      subAGo p neg rep 0 s = s
  | [], _ => rfl
  | c :: s, h => by
      have h0 : fireB p neg (c :: s) = false := by
        have hx := h 0 (Nat.succ_pos _)
        rwa [List.drop_zero] at hx
      simp only [subAGo, h0, Bool.false_eq_true, if_false]
      rw [subAGo_id p neg rep s (fun i hi => by
        have hx := h (i + 1) (by simp only [List.length_cons]; omega)
        rwa [List.drop_succ_cons] at hx)]

/-- Master lemma: a substitution whose three certificates hold leaves
`c1 ++ ('/' :: tl) ++ c2` unchanged, for every all-safe `tl`. -/
theorem subA_mixed_id (p : List PatAtom) (neg : Bool)
    (rep : List Char → List Char) (c1 tl c2 : List Char)
    (hsafe : ∀ c ∈ tl, safeBpChar c = true)
    (h1 : certHead p neg c1 = true) (h2 : certBp p c2 = true)
    (h3 : certTail p neg c2 = true) :
    subA p neg rep (c1 ++ ('/' :: tl) ++ c2) = c1 ++ ('/' :: tl) ++ c2 := by
  have hbp : ∀ c ∈ ('/' :: tl), safeBpChar c = true := by
    intro c hc
    rcases List.mem_cons.mp hc with rfl | hc'
    · rfl
    · exact hsafe c hc'
  have hcond : ∀ i, i < (c1 ++ ('/' :: tl)).length →
      fireB p neg ((c1 ++ ('/' :: tl)).drop i ++ c2) = false := by
    intro i hi
    by_cases hic : i < c1.length
    · rw [drop_append_of_le c1 ('/' :: tl) i (Nat.le_of_lt hic),
        List.append_assoc]
      exact certHead_sound h1 (('/' :: tl) ++ c2) rfl i hic
    · have hige : c1.length ≤ i := Nat.le_of_not_lt hic
      have hd : (c1 ++ ('/' :: tl)).drop i = ('/' :: tl).drop (i - c1.length) := by
        rw [List.drop_append_eq_append_drop, List.drop_eq_nil_of_le hige,
          List.nil_append]
      rw [hd]
      have hjj : i - c1.length < ('/' :: tl).length := by
        rw [List.length_append] at hi
        omega
      exact certBp_sound h2 ('/' :: tl) hbp (i - c1.length) hjj neg
  rw [subA, subAGo_pass p neg rep (c1 ++ ('/' :: tl)) c2 hcond,
    subAGo_id p neg rep c2 (certTail_sound h3)]

/-- Regrouping of a computed substitution result around the abstract
base-path tail. -/
theorem glueA (A tl D R : List Char) :
    A ++ ('/' :: ((tl ++ D) ++ R)) = A ++ ('/' :: tl) ++ (D ++ R) := by
  simp [List.append_assoc]

/-- Unfolding of the nine-substitution pipeline for a non-empty base
path. -/
theorem rewrite_base_paths_cons (tl text : List Char) :
    rewrite_base_paths text ('/' :: tl) =
      subManifest ('/' :: tl) (subUrlQ '"' ('/' :: tl) (subUrlQ '\'' ('/' :: tl)
        (subAttr "action".data '\'' ('/' :: tl) (subAttr "action".data '"' ('/' :: tl)
        (subAttr "src".data '\'' ('/' :: tl) (subAttr "src".data '"' ('/' :: tl)
        (subAttr "href".data '\'' ('/' :: tl) (subAttr "href".data '"' ('/' :: tl)
          text)))))))) := rfl

/-- C1 counterexample: with the non-empty base path `/repo`, an
unquoted root-absolute CSS reference `url(/u0)` is returned unchanged
by `_rewrite_base_paths` — the code only handles the quoted forms
`url('/…` and `url("/…`, so the claimed prefixing of unquoted
`url(/...)` does not happen. -/
theorem unquoted_url_not_rewritten :
    rewrite_base_paths "x:url(/u0);".data "/repo".data = "x:url(/u0);".data ∧
    ("/repo".data : List Char) ≠ [] := by
  constructor
  · rfl
  · decide

/-- C1 (amended): for every base path `'/' :: tl` whose tail is made of
safe characters (letters, digits, slash, hyphen, underscore, dot),
`_rewrite_base_paths` prefixes the base path onto a root-absolute
reference in an `href`, `src` or `action` attribute in either quote
style and in the quoted CSS forms `url('/…` and `url("/…`, rewrites a
bare `manifest.json` href (either quote style) to the base-absolute
form, and leaves protocol-relative `//…` references and unquoted
`url(/…` references unchanged. -/
theorem rewrite_base_paths_spec (tl : List Char)
    (hsafe : ∀ c ∈ tl, safeBpChar c = true) :
    rewrite_base_paths "<a href=\"/a1\">".data ('/' :: tl) =
      "<a href=\"".data ++ ('/' :: tl) ++ "/a1\">".data ∧
    rewrite_base_paths "<a href='/a2'>".data ('/' :: tl) =
      "<a href='".data ++ ('/' :: tl) ++ "/a2'>".data ∧
    rewrite_base_paths "<img src=\"/s1\">".data ('/' :: tl) =
      "<img src=\"".data ++ ('/' :: tl) ++ "/s1\">".data ∧
    rewrite_base_paths "<img src='/s2'>".data ('/' :: tl) =
      "<img src='".data ++ ('/' :: tl) ++ "/s2'>".data ∧
    rewrite_base_paths "<form action=\"/f1\">".data ('/' :: tl) =
      "<form action=\"".data ++ ('/' :: tl) ++ "/f1\">".data ∧
    rewrite_base_paths "<form action='/f2'>".data ('/' :: tl) =
      "<form action='".data ++ ('/' :: tl) ++ "/f2'>".data ∧
    rewrite_base_paths "x:url('/u1');".data ('/' :: tl) =
      "x:url('".data ++ ('/' :: tl) ++ "/u1');".data ∧
    rewrite_base_paths "x:url(\"/u2\");".data ('/' :: tl) =
      "x:url(\"".data ++ ('/' :: tl) ++ "/u2\");".data ∧
    rewrite_base_paths "x:url(/u0);".data ('/' :: tl) =
      "x:url(/u0);".data ∧
    rewrite_base_paths "<a href=\"//cdn.example/x\">".data ('/' :: tl) =
      "<a href=\"//cdn.example/x\">".data ∧
    rewrite_base_paths "x:url('//cdn/x');".data ('/' :: tl) =
      "x:url('//cdn/x');".data ∧
    rewrite_base_paths "<link href=\"manifest.json\">".data ('/' :: tl) =
      "<link href=\"".data ++ ('/' :: tl) ++ "/manifest.json\">".data ∧
    rewrite_base_paths "<link href='manifest.json'>".data ('/' :: tl) =
      "<link href='".data ++ ('/' :: tl) ++ "/manifest.json'>".data := by
  refine ⟨?_, ?_, ?_, ?_, ?_, ?_, ?_, ?_, ?_, ?_, ?_, ?_, ?_⟩
  · -- <a href="/a1">
    have s0 : subAttr "href".data '"' ('/' :: tl) "<a href=\"/a1\">".data
        = "<a href=\"".data ++ ('/' :: ((tl ++ "/".data) ++ "a1\">".data)) := rfl
    have s1 : subAttr "href".data '"' ('/' :: tl) "<a href=\"/a1\">".data = "<a href=\"".data ++ ('/' :: tl) ++ "/a1\">".data := by
      rw [s0, glueA]
      exact rfl
    have m2 : subAttr "href".data '\'' ('/' :: tl) ("<a href=\"".data ++ ('/' :: tl) ++ "/a1\">".data) = "<a href=\"".data ++ ('/' :: tl) ++ "/a1\">".data :=
      subA_mixed_id _ _ _ _ tl _ hsafe (by decide) (by decide) (by decide)
    have m3 : subAttr "src".data '"' ('/' :: tl) ("<a href=\"".data ++ ('/' :: tl) ++ "/a1\">".data) = "<a href=\"".data ++ ('/' :: tl) ++ "/a1\">".data :=
      subA_mixed_id _ _ _ _ tl _ hsafe (by decide) (by decide) (by decide)
    have m4 : subAttr "src".data '\'' ('/' :: tl) ("<a href=\"".data ++ ('/' :: tl) ++ "/a1\">".data) = "<a href=\"".data ++ ('/' :: tl) ++ "/a1\">".data :=
      subA_mixed_id _ _ _ _ tl _ hsafe (by decide) (by decide) (by decide)
    have m5 : subAttr "action".data '"' ('/' :: tl) ("<a href=\"".data ++ ('/' :: tl) ++ "/a1\">".data) = "<a href=\"".data ++ ('/' :: tl) ++ "/a1\">".data :=
      subA_mixed_id _ _ _ _ tl _ hsafe (by decide) (by decide) (by decide)
    have m6 : subAttr "action".data '\'' ('/' :: tl) ("<a href=\"".data ++ ('/' :: tl) ++ "/a1\">".data) = "<a href=\"".data ++ ('/' :: tl) ++ "/a1\">".data :=
      subA_mixed_id _ _ _ _ tl _ hsafe (by decide) (by decide) (by decide)
    have m7 : subUrlQ '\'' ('/' :: tl) ("<a href=\"".data ++ ('/' :: tl) ++ "/a1\">".data) = "<a href=\"".data ++ ('/' :: tl) ++ "/a1\">".data :=
      subA_mixed_id _ _ _ _ tl _ hsafe (by decide) (by decide) (by decide)
    have m8 : subUrlQ '"' ('/' :: tl) ("<a href=\"".data ++ ('/' :: tl) ++ "/a1\">".data) = "<a href=\"".data ++ ('/' :: tl) ++ "/a1\">".data :=
      subA_mixed_id _ _ _ _ tl _ hsafe (by decide) (by decide) (by decide)
    have m9 : subManifest ('/' :: tl) ("<a href=\"".data ++ ('/' :: tl) ++ "/a1\">".data) = "<a href=\"".data ++ ('/' :: tl) ++ "/a1\">".data :=
      subA_mixed_id _ _ _ _ tl _ hsafe (by decide) (by decide) (by decide)
    rw [rewrite_base_paths_cons, s1, m2, m3, m4, m5, m6, m7, m8, m9]
  · -- <a href='/a2'>
    have t1 : subAttr "href".data '"' ('/' :: tl) "<a href='/a2'>".data = "<a href='/a2'>".data := rfl
    have s0 : subAttr "href".data '\'' ('/' :: tl) "<a href='/a2'>".data
        = "<a href='".data ++ ('/' :: ((tl ++ "/".data) ++ "a2'>".data)) := rfl
    have s1 : subAttr "href".data '\'' ('/' :: tl) "<a href='/a2'>".data = "<a href='".data ++ ('/' :: tl) ++ "/a2'>".data := by
      rw [s0, glueA]
      exact rfl
    have m3 : subAttr "src".data '"' ('/' :: tl) ("<a href='".data ++ ('/' :: tl) ++ "/a2'>".data) = "<a href='".data ++ ('/' :: tl) ++ "/a2'>".data :=
      subA_mixed_id _ _ _ _ tl _ hsafe (by decide) (by decide) (by decide)
    have m4 : subAttr "src".data '\'' ('/' :: tl) ("<a href='".data ++ ('/' :: tl) ++ "/a2'>".data) = "<a href='".data ++ ('/' :: tl) ++ "/a2'>".data :=
      subA_mixed_id _ _ _ _ tl _ hsafe (by decide) (by decide) (by decide)
    have m5 : subAttr "action".data '"' ('/' :: tl) ("<a href='".data ++ ('/' :: tl) ++ "/a2'>".data) = "<a href='".data ++ ('/' :: tl) ++ "/a2'>".data :=
      subA_mixed_id _ _ _ _ tl _ hsafe (by decide) (by decide) (by decide)
    have m6 : subAttr "action".data '\'' ('/' :: tl) ("<a href='".data ++ ('/' :: tl) ++ "/a2'>".data) = "<a href='".data ++ ('/' :: tl) ++ "/a2'>".data :=
      subA_mixed_id _ _ _ _ tl _ hsafe (by decide) (by decide) (by decide)
    have m7 : subUrlQ '\'' ('/' :: tl) ("<a href='".data ++ ('/' :: tl) ++ "/a2'>".data) = "<a href='".data ++ ('/' :: tl) ++ "/a2'>".data :=
      subA_mixed_id _ _ _ _ tl _ hsafe (by decide) (by decide) (by decide)
    have m8 : subUrlQ '"' ('/' :: tl) ("<a href='".data ++ ('/' :: tl) ++ "/a2'>".data) = "<a href='".data ++ ('/' :: tl) ++ "/a2'>".data :=
      subA_mixed_id _ _ _ _ tl _ hsafe (by decide) (by decide) (by decide)
    have m9 : subManifest ('/' :: tl) ("<a href='".data ++ ('/' :: tl) ++ "/a2'>".data) = "<a href='".data ++ ('/' :: tl) ++ "/a2'>".data :=
      subA_mixed_id _ _ _ _ tl _ hsafe (by decide) (by decide) (by decide)
    rw [rewrite_base_paths_cons, t1, s1, m3, m4, m5, m6, m7, m8, m9]
  · -- <img src="/s1">
    have t1 : subAttr "href".data '"' ('/' :: tl) "<img src=\"/s1\">".data = "<img src=\"/s1\">".data := rfl
    have t2 : subAttr "href".data '\'' ('/' :: tl) "<img src=\"/s1\">".data = "<img src=\"/s1\">".data := rfl
    have s0 : subAttr "src".data '"' ('/' :: tl) "<img src=\"/s1\">".data
        = "<img src=\"".data ++ ('/' :: ((tl ++ "/".data) ++ "s1\">".data)) := rfl
    have s1 : subAttr "src".data '"' ('/' :: tl) "<img src=\"/s1\">".data = "<img src=\"".data ++ ('/' :: tl) ++ "/s1\">".data := by
      rw [s0, glueA]
      exact rfl
    have m4 : subAttr "src".data '\'' ('/' :: tl) ("<img src=\"".data ++ ('/' :: tl) ++ "/s1\">".data) = "<img src=\"".data ++ ('/' :: tl) ++ "/s1\">".data :=
      subA_mixed_id _ _ _ _ tl _ hsafe (by decide) (by decide) (by decide)
    have m5 : subAttr "action".data '"' ('/' :: tl) ("<img src=\"".data ++ ('/' :: tl) ++ "/s1\">".data) = "<img src=\"".data ++ ('/' :: tl) ++ "/s1\">".data :=
      subA_mixed_id _ _ _ _ tl _ hsafe (by decide) (by decide) (by decide)
    have m6 : subAttr "action".data '\'' ('/' :: tl) ("<img src=\"".data ++ ('/' :: tl) ++ "/s1\">".data) = "<img src=\"".data ++ ('/' :: tl) ++ "/s1\">".data :=
      subA_mixed_id _ _ _ _ tl _ hsafe (by decide) (by decide) (by decide)
    have m7 : subUrlQ '\'' ('/' :: tl) ("<img src=\"".data ++ ('/' :: tl) ++ "/s1\">".data) = "<img src=\"".data ++ ('/' :: tl) ++ "/s1\">".data :=
      subA_mixed_id _ _ _ _ tl _ hsafe (by decide) (by decide) (by decide)
    have m8 : subUrlQ '"' ('/' :: tl) ("<img src=\"".data ++ ('/' :: tl) ++ "/s1\">".data) = "<img src=\"".data ++ ('/' :: tl) ++ "/s1\">".data :=
      subA_mixed_id _ _ _ _ tl _ hsafe (by decide) (by decide) (by decide)
    have m9 : subManifest ('/' :: tl) ("<img src=\"".data ++ ('/' :: tl) ++ "/s1\">".data) = "<img src=\"".data ++ ('/' :: tl) ++ "/s1\">".data :=
      subA_mixed_id _ _ _ _ tl _ hsafe (by decide) (by decide) (by decide)
    rw [rewrite_base_paths_cons, t1, t2, s1, m4, m5, m6, m7, m8, m9]
  · -- <img src='/s2'>
    have t1 : subAttr "href".data '"' ('/' :: tl) "<img src='/s2'>".data = "<img src='/s2'>".data := rfl
    have t2 : subAttr "href".data '\'' ('/' :: tl) "<img src='/s2'>".data = "<img src='/s2'>".data := rfl
    have t3 : subAttr "src".data '"' ('/' :: tl) "<img src='/s2'>".data = "<img src='/s2'>".data := rfl
    have s0 : subAttr "src".data '\'' ('/' :: tl) "<img src='/s2'>".data
        = "<img src='".data ++ ('/' :: ((tl ++ "/".data) ++ "s2'>".data)) := rfl
    have s1 : subAttr "src".data '\'' ('/' :: tl) "<img src='/s2'>".data = "<img src='".data ++ ('/' :: tl) ++ "/s2'>".data := by
      rw [s0, glueA]
      exact rfl
    have m5 : subAttr "action".data '"' ('/' :: tl) ("<img src='".data ++ ('/' :: tl) ++ "/s2'>".data) = "<img src='".data ++ ('/' :: tl) ++ "/s2'>".data :=
      subA_mixed_id _ _ _ _ tl _ hsafe (by decide) (by decide) (by decide)
    have m6 : subAttr "action".data '\'' ('/' :: tl) ("<img src='".data ++ ('/' :: tl) ++ "/s2'>".data) = "<img src='".data ++ ('/' :: tl) ++ "/s2'>".data :=
      subA_mixed_id _ _ _ _ tl _ hsafe (by decide) (by decide) (by decide)
    have m7 : subUrlQ '\'' ('/' :: tl) ("<img src='".data ++ ('/' :: tl) ++ "/s2'>".data) = "<img src='".data ++ ('/' :: tl) ++ "/s2'>".data :=
      subA_mixed_id _ _ _ _ tl _ hsafe (by decide) (by decide) (by decide)
    have m8 : subUrlQ '"' ('/' :: tl) ("<img src='".data ++ ('/' :: tl) ++ "/s2'>".data) = "<img src='".data ++ ('/' :: tl) ++ "/s2'>".data :=
      subA_mixed_id _ _ _ _ tl _ hsafe (by decide) (by decide) (by decide)
    have m9 : subManifest ('/' :: tl) ("<img src='".data ++ ('/' :: tl) ++ "/s2'>".data) = "<img src='".data ++ ('/' :: tl) ++ "/s2'>".data :=
      subA_mixed_id _ _ _ _ tl _ hsafe (by decide) (by decide) (by decide)
    rw [rewrite_base_paths_cons, t1, t2, t3, s1, m5, m6, m7, m8, m9]
  · -- <form action="/f1">
    have t1 : subAttr "href".data '"' ('/' :: tl) "<form action=\"/f1\">".data = "<form action=\"/f1\">".data := rfl
    have t2 : subAttr "href".data '\'' ('/' :: tl) "<form action=\"/f1\">".data = "<form action=\"/f1\">".data := rfl
    have t3 : subAttr "src".data '"' ('/' :: tl) "<form action=\"/f1\">".data = "<form action=\"/f1\">".data := rfl
    have t4 : subAttr "src".data '\'' ('/' :: tl) "<form action=\"/f1\">".data = "<form action=\"/f1\">".data := rfl
    have s0 : subAttr "action".data '"' ('/' :: tl) "<form action=\"/f1\">".data
        = "<form action=\"".data ++ ('/' :: ((tl ++ "/".data) ++ "f1\">".data)) := rfl
    have s1 : subAttr "action".data '"' ('/' :: tl) "<form action=\"/f1\">".data = "<form action=\"".data ++ ('/' :: tl) ++ "/f1\">".data := by
      rw [s0, glueA]
      exact rfl
    have m6 : subAttr "action".data '\'' ('/' :: tl) ("<form action=\"".data ++ ('/' :: tl) ++ "/f1\">".data) = "<form action=\"".data ++ ('/' :: tl) ++ "/f1\">".data :=
      subA_mixed_id _ _ _ _ tl _ hsafe (by decide) (by decide) (by decide)
    have m7 : subUrlQ '\'' ('/' :: tl) ("<form action=\"".data ++ ('/' :: tl) ++ "/f1\">".data) = "<form action=\"".data ++ ('/' :: tl) ++ "/f1\">".data :=
      subA_mixed_id _ _ _ _ tl _ hsafe (by decide) (by decide) (by decide)
    have m8 : subUrlQ '"' ('/' :: tl) ("<form action=\"".data ++ ('/' :: tl) ++ "/f1\">".data) = "<form action=\"".data ++ ('/' :: tl) ++ "/f1\">".data :=
      subA_mixed_id _ _ _ _ tl _ hsafe (by decide) (by decide) (by decide)
    have m9 : subManifest ('/' :: tl) ("<form action=\"".data ++ ('/' :: tl) ++ "/f1\">".data) = "<form action=\"".data ++ ('/' :: tl) ++ "/f1\">".data :=
      subA_mixed_id _ _ _ _ tl _ hsafe (by decide) (by decide) (by decide)
    rw [rewrite_base_paths_cons, t1, t2, t3, t4, s1, m6, m7, m8, m9]
  · -- <form action='/f2'>
    have t1 : subAttr "href".data '"' ('/' :: tl) "<form action='/f2'>".data = "<form action='/f2'>".data := rfl
    have t2 : subAttr "href".data '\'' ('/' :: tl) "<form action='/f2'>".data = "<form action='/f2'>".data := rfl
    have t3 : subAttr "src".data '"' ('/' :: tl) "<form action='/f2'>".data = "<form action='/f2'>".data := rfl
    have t4 : subAttr "src".data '\'' ('/' :: tl) "<form action='/f2'>".data = "<form action='/f2'>".data := rfl
    have t5 : subAttr "action".data '"' ('/' :: tl) "<form action='/f2'>".data = "<form action='/f2'>".data := rfl
    have s0 : subAttr "action".data '\'' ('/' :: tl) "<form action='/f2'>".data
        = "<form action='".data ++ ('/' :: ((tl ++ "/".data) ++ "f2'>".data)) := rfl
    have s1 : subAttr "action".data '\'' ('/' :: tl) "<form action='/f2'>".data = "<form action='".data ++ ('/' :: tl) ++ "/f2'>".data := by
      rw [s0, glueA]
      exact rfl
    have m7 : subUrlQ '\'' ('/' :: tl) ("<form action='".data ++ ('/' :: tl) ++ "/f2'>".data) = "<form action='".data ++ ('/' :: tl) ++ "/f2'>".data :=
      subA_mixed_id _ _ _ _ tl _ hsafe (by decide) (by decide) (by decide)
    have m8 : subUrlQ '"' ('/' :: tl) ("<form action='".data ++ ('/' :: tl) ++ "/f2'>".data) = "<form action='".data ++ ('/' :: tl) ++ "/f2'>".data :=
      subA_mixed_id _ _ _ _ tl _ hsafe (by decide) (by decide) (by decide)
    have m9 : subManifest ('/' :: tl) ("<form action='".data ++ ('/' :: tl) ++ "/f2'>".data) = "<form action='".data ++ ('/' :: tl) ++ "/f2'>".data :=
      subA_mixed_id _ _ _ _ tl _ hsafe (by decide) (by decide) (by decide)
    rw [rewrite_base_paths_cons, t1, t2, t3, t4, t5, s1, m7, m8, m9]
  · -- x:url('/u1');
    have t1 : subAttr "href".data '"' ('/' :: tl) "x:url('/u1');".data = "x:url('/u1');".data := rfl
    have t2 : subAttr "href".data '\'' ('/' :: tl) "x:url('/u1');".data = "x:url('/u1');".data := rfl
    have t3 : subAttr "src".data '"' ('/' :: tl) "x:url('/u1');".data = "x:url('/u1');".data := rfl
    have t4 : subAttr "src".data '\'' ('/' :: tl) "x:url('/u1');".data = "x:url('/u1');".data := rfl
    have t5 : subAttr "action".data '"' ('/' :: tl) "x:url('/u1');".data = "x:url('/u1');".data := rfl
    have t6 : subAttr "action".data '\'' ('/' :: tl) "x:url('/u1');".data = "x:url('/u1');".data := rfl
    have s0 : subUrlQ '\'' ('/' :: tl) "x:url('/u1');".data
        = "x:url('".data ++ ('/' :: ((tl ++ "/".data) ++ "u1');".data)) := rfl
    have s1 : subUrlQ '\'' ('/' :: tl) "x:url('/u1');".data = "x:url('".data ++ ('/' :: tl) ++ "/u1');".data := by
      rw [s0, glueA]
      exact rfl
    have m8 : subUrlQ '"' ('/' :: tl) ("x:url('".data ++ ('/' :: tl) ++ "/u1');".data) = "x:url('".data ++ ('/' :: tl) ++ "/u1');".data :=
      subA_mixed_id _ _ _ _ tl _ hsafe (by decide) (by decide) (by decide)
    have m9 : subManifest ('/' :: tl) ("x:url('".data ++ ('/' :: tl) ++ "/u1');".data) = "x:url('".data ++ ('/' :: tl) ++ "/u1');".data :=
      subA_mixed_id _ _ _ _ tl _ hsafe (by decide) (by decide) (by decide)
    rw [rewrite_base_paths_cons, t1, t2, t3, t4, t5, t6, s1, m8, m9]
  · -- x:url("/u2");
    have t1 : subAttr "href".data '"' ('/' :: tl) "x:url(\"/u2\");".data = "x:url(\"/u2\");".data := rfl
    have t2 : subAttr "href".data '\'' ('/' :: tl) "x:url(\"/u2\");".data = "x:url(\"/u2\");".data := rfl
    have t3 : subAttr "src".data '"' ('/' :: tl) "x:url(\"/u2\");".data = "x:url(\"/u2\");".data := rfl
    have t4 : subAttr "src".data '\'' ('/' :: tl) "x:url(\"/u2\");".data = "x:url(\"/u2\");".data := rfl
    have t5 : subAttr "action".data '"' ('/' :: tl) "x:url(\"/u2\");".data = "x:url(\"/u2\");".data := rfl
    have t6 : subAttr "action".data '\'' ('/' :: tl) "x:url(\"/u2\");".data = "x:url(\"/u2\");".data := rfl
    have t7 : subUrlQ '\'' ('/' :: tl) "x:url(\"/u2\");".data = "x:url(\"/u2\");".data := rfl
    have s0 : subUrlQ '"' ('/' :: tl) "x:url(\"/u2\");".data
        = "x:url(\"".data ++ ('/' :: ((tl ++ "/".data) ++ "u2\");".data)) := rfl
    have s1 : subUrlQ '"' ('/' :: tl) "x:url(\"/u2\");".data = "x:url(\"".data ++ ('/' :: tl) ++ "/u2\");".data := by
      rw [s0, glueA]
      exact rfl
    have m9 : subManifest ('/' :: tl) ("x:url(\"".data ++ ('/' :: tl) ++ "/u2\");".data) = "x:url(\"".data ++ ('/' :: tl) ++ "/u2\");".data :=
      subA_mixed_id _ _ _ _ tl _ hsafe (by decide) (by decide) (by decide)
    rw [rewrite_base_paths_cons, t1, t2, t3, t4, t5, t6, t7, s1, m9]
  · rfl
  · rfl
  · rfl
  · -- <link href="manifest.json">
    have t1 : subAttr "href".data '"' ('/' :: tl) "<link href=\"manifest.json\">".data = "<link href=\"manifest.json\">".data := rfl
    have t2 : subAttr "href".data '\'' ('/' :: tl) "<link href=\"manifest.json\">".data = "<link href=\"manifest.json\">".data := rfl
    have t3 : subAttr "src".data '"' ('/' :: tl) "<link href=\"manifest.json\">".data = "<link href=\"manifest.json\">".data := rfl
    have t4 : subAttr "src".data '\'' ('/' :: tl) "<link href=\"manifest.json\">".data = "<link href=\"manifest.json\">".data := rfl
    have t5 : subAttr "action".data '"' ('/' :: tl) "<link href=\"manifest.json\">".data = "<link href=\"manifest.json\">".data := rfl
    have t6 : subAttr "action".data '\'' ('/' :: tl) "<link href=\"manifest.json\">".data = "<link href=\"manifest.json\">".data := rfl
    have t7 : subUrlQ '\'' ('/' :: tl) "<link href=\"manifest.json\">".data = "<link href=\"manifest.json\">".data := rfl
    have t8 : subUrlQ '"' ('/' :: tl) "<link href=\"manifest.json\">".data = "<link href=\"manifest.json\">".data := rfl
    have s0 : subManifest ('/' :: tl) "<link href=\"manifest.json\">".data
        = "<link href=\"".data ++ ('/' :: ((tl ++ "/manifest.json".data) ++ "\">".data)) := rfl
    have s1 : subManifest ('/' :: tl) "<link href=\"manifest.json\">".data = "<link href=\"".data ++ ('/' :: tl) ++ "/manifest.json\">".data := by
      rw [s0, glueA]
      exact rfl
    rw [rewrite_base_paths_cons, t1, t2, t3, t4, t5, t6, t7, t8, s1]
  · -- <link href='manifest.json'>
    have t1 : subAttr "href".data '"' ('/' :: tl) "<link href='manifest.json'>".data = "<link href='manifest.json'>".data := rfl
    have t2 : subAttr "href".data '\'' ('/' :: tl) "<link href='manifest.json'>".data = "<link href='manifest.json'>".data := rfl
    have t3 : subAttr "src".data '"' ('/' :: tl) "<link href='manifest.json'>".data = "<link href='manifest.json'>".data := rfl
    have t4 : subAttr "src".data '\'' ('/' :: tl) "<link href='manifest.json'>".data = "<link href='manifest.json'>".data := rfl
    have t5 : subAttr "action".data '"' ('/' :: tl) "<link href='manifest.json'>".data = "<link href='manifest.json'>".data := rfl
    have t6 : subAttr "action".data '\'' ('/' :: tl) "<link href='manifest.json'>".data = "<link href='manifest.json'>".data := rfl
    have t7 : subUrlQ '\'' ('/' :: tl) "<link href='manifest.json'>".data = "<link href='manifest.json'>".data := rfl
    have t8 : subUrlQ '"' ('/' :: tl) "<link href='manifest.json'>".data = "<link href='manifest.json'>".data := rfl
    have s0 : subManifest ('/' :: tl) "<link href='manifest.json'>".data
        = "<link href='".data ++ ('/' :: ((tl ++ "/manifest.json".data) ++ "'>".data)) := rfl
    have s1 : subManifest ('/' :: tl) "<link href='manifest.json'>".data = "<link href='".data ++ ('/' :: tl) ++ "/manifest.json'>".data := by
      rw [s0, glueA]
      exact rfl
    rw [rewrite_base_paths_cons, t1, t2, t3, t4, t5, t6, t7, t8, s1]

/-- Witness for the amended C1 at the concrete base path `/repo`: the
safety hypothesis holds for `repo`, a double-quoted href is prefixed,
and an unquoted `url(/…` reference is unchanged. -/
theorem rewrite_base_paths_spec_witness :
    (∀ c ∈ "repo".data, safeBpChar c = true) ∧
    rewrite_base_paths "<a href=\"/a1\">".data ('/' :: "repo".data) =
      "<a href=\"".data ++ ('/' :: "repo".data) ++ "/a1\">".data ∧
    rewrite_base_paths "x:url(/u0);".data ('/' :: "repo".data) =
      "x:url(/u0);".data :=
  ⟨by decide, (rewrite_base_paths_spec "repo".data (by decide)).1,
    (rewrite_base_paths_spec "repo".data (by decide)).2.2.2.2.2.2.2.2.1⟩

end ExportStatic

